import Mathlib

/-!
Verification development for the cache-dump subsystem of the repository:
the dump file lifecycle manager (`cache::dump::DumpManager` in
`core/src/cache/dump/dump_manager.cpp`) and the cache configuration model
(`cache::CacheConfig` and friends in `core/src/cache/cache_config.cpp`).

The embedding represents:
* `TimePoint` (microseconds since the Unix epoch, UTC) as `Int`;
* file names as `List Char`; a dump directory as the list of names of its
  regular files, in (unspecified) directory-iteration order;
* the dump-file-name grammar `^(\d{4}-\d{2}-\d{2}T\d{2}:\d{2}:\d{2}\.\d{6})-v(\d+)(\.tmp)?$`
  as a deterministic structural parser (the regex has fixed-width groups, so
  the parser is exactly the regex semantics);
* `utils::datetime::Timestring` / `Stringtime` (UTC, format
  `%Y-%m-%dT%H:%M:%E6S`), which live outside the extracted sources, via the
  proleptic-Gregorian civil-calendar conversion used by cctz
  (days_from_civil / civil_from_days).
-/

/-! ## Decimal digits and fixed-width decimal fields -/

def digitChar (d : Nat) : Char :=
  match d with
  | 0 => '0' | 1 => '1' | 2 => '2' | 3 => '3' | 4 => '4'
  | 5 => '5' | 6 => '6' | 7 => '7' | 8 => '8' | _ => '9'

def digitVal (c : Char) : Nat := c.toNat - 48

def isDig (c : Char) : Bool := decide (48 ≤ c.toNat) && decide (c.toNat ≤ 57)

/-- Value of a big-endian string of decimal digits (as scanned by the regex
groups and converted by `utils::FromString` / `Stringtime` field parsing). -/
def digitsVal (cs : List Char) : Nat := cs.foldl (fun a c => 10 * a + digitVal c) 0

/-- Decimal printing helper; `fuel` bounds the recursion depth. -/
def natDecAux : Nat → Nat → List Char
  | 0, _ => []
  | fuel + 1, n => if n = 0 then [] else natDecAux fuel (n / 10) ++ [digitChar (n % 10)]

/-- Decimal representation of a natural number, as produced by `fmt::format`. -/
def natDec (n : Nat) : List Char := if n = 0 then [('0')] else natDecAux n n

/-- Zero-padded decimal field of width `w`, as produced by cctz formatting
(`%Y`, `%m`, `%d`, `%H`, `%M`, `%S`, `%E6S`): at least `w` characters,
left-padded with zeros. -/
def padNum (w n : Nat) : List Char :=
  List.replicate (w - (natDec n).length) ('0') ++ natDec n

theorem digitVal_digitChar {d : Nat} (h : d < 10) : digitVal (digitChar d) = d := by
  interval_cases d <;> rfl

theorem isDig_digitChar {d : Nat} (h : d < 10) : isDig (digitChar d) = true := by
  interval_cases d <;> rfl

theorem digitsVal_append (l₁ l₂ : List Char) :
    digitsVal (l₁ ++ l₂) = l₂.foldl (fun a c => 10 * a + digitVal c) (digitsVal l₁) := by
  simp [digitsVal, List.foldl_append]

theorem digitsVal_append_singleton (l : List Char) (c : Char) :
    digitsVal (l ++ [c]) = 10 * digitsVal l + digitVal c := by
  simp [digitsVal_append]

theorem digitsVal_natDecAux : ∀ fuel n, n < 10 ^ fuel → digitsVal (natDecAux fuel n) = n := by
  intro fuel
  induction fuel with
  | zero =>
    intro n h
    interval_cases n
    rfl
  | succ fuel ih =>
    intro n h
    by_cases h0 : n = 0
    · simp [natDecAux, h0, digitsVal]
    · have hdiv : n / 10 < 10 ^ fuel := by
        rw [Nat.div_lt_iff_lt_mul (by norm_num)]
        calc n < 10 ^ (fuel + 1) := h
        _ = 10 ^ fuel * 10 := by ring
      rw [natDecAux, if_neg h0, digitsVal_append_singleton, ih _ hdiv,
        digitVal_digitChar (Nat.mod_lt _ (by norm_num))]
      omega

theorem mem_natDecAux_isDig : ∀ fuel n c, c ∈ natDecAux fuel n → isDig c = true := by
  intro fuel
  induction fuel with
  | zero => intro n c h; simp [natDecAux] at h
  | succ fuel ih =>
    intro n c h
    by_cases h0 : n = 0
    · simp [natDecAux, h0] at h
    · rw [natDecAux, if_neg h0] at h
      rcases List.mem_append.mp h with h1 | h1
      · exact ih _ _ h1
      · rcases List.mem_singleton.mp h1 with rfl
        exact isDig_digitChar (Nat.mod_lt _ (by norm_num))

theorem length_natDecAux : ∀ fuel n w, n < 10 ^ w → (natDecAux fuel n).length ≤ w := by
  intro fuel
  induction fuel with
  | zero => intro n w _; simp [natDecAux]
  | succ fuel ih =>
    intro n w h
    by_cases h0 : n = 0
    · simp [natDecAux, h0]
    · have hw : w ≠ 0 := by
        rintro rfl
        simp at h
        omega
      obtain ⟨w', rfl⟩ : ∃ w', w = w' + 1 := ⟨w - 1, by omega⟩
      have hdiv : n / 10 < 10 ^ w' := by
        rw [Nat.div_lt_iff_lt_mul (by norm_num)]
        calc n < 10 ^ (w' + 1) := h
        _ = 10 ^ w' * 10 := by ring
      rw [natDecAux, if_neg h0]
      have := ih (n / 10) w' hdiv
      simp only [List.length_append, List.length_singleton]
      omega

theorem digitsVal_natDec (n : Nat) : digitsVal (natDec n) = n := by
  by_cases h0 : n = 0
  · subst h0; rfl
  · rw [natDec, if_neg h0]
    exact digitsVal_natDecAux n n (Nat.lt_pow_self (by norm_num) n)

theorem mem_natDec_isDig (n : Nat) (c : Char) (h : c ∈ natDec n) : isDig c = true := by
  by_cases h0 : n = 0
  · subst h0
    rcases List.mem_singleton.mp h with rfl
    rfl
  · rw [natDec, if_neg h0] at h
    exact mem_natDecAux_isDig n n c h

theorem natDec_ne_nil (n : Nat) : natDec n ≠ [] := by
  by_cases h0 : n = 0
  · subst h0; simp [natDec]
  · rw [natDec, if_neg h0]
    intro hnil
    have := digitsVal_natDecAux n n (Nat.lt_pow_self (by norm_num) n)
    rw [hnil] at this
    simp [digitsVal] at this
    omega

theorem length_natDec_le {n w : Nat} (hw : 1 ≤ w) (h : n < 10 ^ w) :
    (natDec n).length ≤ w := by
  by_cases h0 : n = 0
  · subst h0; simpa [natDec] using hw
  · rw [natDec, if_neg h0]
    exact length_natDecAux n n w h

theorem digitsVal_zeros_append (k : Nat) (l : List Char) :
    digitsVal (List.replicate k ('0') ++ l) = digitsVal l := by
  induction k with
  | zero => simp
  | succ k ih =>
    have : List.replicate (k + 1) ('0') ++ l = ('0') :: (List.replicate k ('0') ++ l) := by
      simp [List.replicate_succ]
    rw [this]
    show List.foldl _ (10 * 0 + digitVal ('0')) _ = _
    have hz : 10 * 0 + digitVal ('0') = 0 := by rfl
    rw [hz]
    exact ih

theorem digitsVal_padNum (w n : Nat) : digitsVal (padNum w n) = n := by
  rw [padNum, digitsVal_zeros_append, digitsVal_natDec]

theorem length_padNum {w n : Nat} (hw : 1 ≤ w) (h : n < 10 ^ w) :
    (padNum w n).length = w := by
  have := length_natDec_le hw h
  simp only [padNum, List.length_append, List.length_replicate]
  omega

theorem mem_padNum_isDig (w n : Nat) (c : Char) (h : c ∈ padNum w n) : isDig c = true := by
  rcases List.mem_append.mp h with h1 | h1
  · rcases List.eq_of_mem_replicate h1 with rfl
    rfl
  · exact mem_natDec_isDig n c h1

/-! ## Proleptic-Gregorian calendar (cctz `civil_from_days` / `days_from_civil`)

`utils::datetime::Stringtime` / `Timestring` (used by `DumpManager` with the
format `%Y-%m-%dT%H:%M:%E6S` in UTC) are not part of the extracted sources.
Modelled from the spec: timestamps are UTC wall-clock instants at microsecond
resolution rendered through the proleptic-Gregorian calendar; the embedding
uses the standard era-based conversion (Hinnant's algorithm, as in cctz),
shifted by one 400-year era so that all intermediate values are naturals. -/

def isLeap (y : Nat) : Bool := (y % 4 == 0 && y % 100 != 0) || y % 400 == 0

def daysInMonth (y mo : Nat) : Nat :=
  if mo = 2 then (if isLeap y then 29 else 28)
  else if mo = 4 ∨ mo = 6 ∨ mo = 9 ∨ mo = 11 then 30 else 31

/-- Days before the March-based year `yoe` within a 400-year era. -/
def eraS (yoe : Nat) : Nat := 365 * yoe + yoe / 4 - yoe / 100

/-- Like `eraS` but closed at 400 (total era length 146097). -/
def eraSS (yoe : Nat) : Nat := if yoe = 400 then 146097 else eraS yoe

/-- Year-of-era from day-of-era (the division formula from `civil_from_days`). -/
def extractYoe (doe : Nat) : Nat :=
  (doe - doe / 1460 + doe / 36524 - doe / 146096) / 365

/-- Length of the March-based month `mp` (0 = March, ..., 11 = February;
February counted with its leap-year maximum). -/
def monthLen (mp : Nat) : Nat :=
  if mp = 1 ∨ mp = 3 ∨ mp = 6 ∨ mp = 8 then 30 else if mp = 11 then 29 else 31

def yoeOk (yoe : Nat) : Bool :=
  decide (eraSS yoe < eraSS (yoe + 1)) &&
  decide (extractYoe (eraSS yoe) = yoe) &&
  decide (extractYoe (eraSS (yoe + 1) - 1) = yoe) &&
  (decide (eraSS (yoe + 1) - eraSS yoe = 366) == isLeap (yoe + 1)) &&
  decide (eraSS (yoe + 1) - eraSS yoe ≤ 366)

def yoeOkFrom : Nat → Nat → Bool
  | _, 0 => true
  | i, fuel + 1 =>
    match yoeOk i with
    | true => yoeOkFrom (i + 1) fuel
    | false => false

/-- March-based month index from day-of-March-year (`civil_from_days`). -/
def cfgMp (doy : Nat) : Nat := (5 * doy + 2) / 153

/-- Day-of-month from day-of-March-year (`civil_from_days`). -/
def cfgD (doy : Nat) : Nat := doy - (153 * cfgMp doy + 2) / 5 + 1

/-- Civil month from day-of-March-year (`civil_from_days`). -/
def cfgMo (doy : Nat) : Nat := if cfgMp doy < 10 then cfgMp doy + 3 else cfgMp doy - 9

def doyOk (doy : Nat) : Bool :=
  decide (cfgMp doy < 12) && decide ((153 * cfgMp doy + 2) / 5 ≤ doy) &&
  (decide (10 ≤ cfgMp doy) == decide (306 ≤ doy)) &&
  (if cfgMp doy = 11 then
    decide (cfgD doy ≤ 29) && (decide (cfgD doy = 29) == decide (doy = 365))
   else decide (cfgD doy ≤ monthLen (cfgMp doy)))

def doyOkFrom : Nat → Nat → Bool
  | _, 0 => true
  | i, fuel + 1 =>
    match doyOk i with
    | true => doyOkFrom (i + 1) fuel
    | false => false

set_option maxRecDepth 40000 in
theorem yoeOk_all : yoeOkFrom 0 400 = true := by decide

set_option maxRecDepth 40000 in
theorem doyOk_all : doyOkFrom 0 366 = true := by decide

theorem yoeOkFrom_spec : ∀ fuel i j, i ≤ j → j < i + fuel →
    yoeOkFrom i fuel = true → yoeOk j = true := by
  intro fuel
  induction fuel with
  | zero => intro i j h1 h2; omega
  | succ fuel ih =>
    intro i j h1 h2 hall
    rw [yoeOkFrom] at hall
    rcases hok : yoeOk i with _ | _
    · rw [hok] at hall; exact absurd hall (by simp)
    · rw [hok] at hall
      by_cases hij : j = i
      · subst hij; exact hok
      · exact ih (i + 1) j (by omega) (by omega) hall

theorem doyOkFrom_spec : ∀ fuel i j, i ≤ j → j < i + fuel →
    doyOkFrom i fuel = true → doyOk j = true := by
  intro fuel
  induction fuel with
  | zero => intro i j h1 h2; omega
  | succ fuel ih =>
    intro i j h1 h2 hall
    rw [doyOkFrom] at hall
    rcases hok : doyOk i with _ | _
    · rw [hok] at hall; exact absurd hall (by simp)
    · rw [hok] at hall
      by_cases hij : j = i
      · subst hij; exact hok
      · exact ih (i + 1) j (by omega) (by omega) hall

theorem yoeOk_of_lt {yoe : Nat} (h : yoe < 400) : yoeOk yoe = true :=
  yoeOkFrom_spec 400 0 yoe (Nat.zero_le _) (by omega) yoeOk_all

theorem doyOk_of_lt {doy : Nat} (h : doy < 366) : doyOk doy = true :=
  doyOkFrom_spec 366 0 doy (Nat.zero_le _) (by omega) doyOk_all

theorem extractNum_mono_step (d : Nat) :
    d - d / 1460 + d / 36524 - d / 146096 ≤
      (d + 1) - (d + 1) / 1460 + (d + 1) / 36524 - (d + 1) / 146096 := by
  omega

theorem extractNum_mono : ∀ k d,
    d - d / 1460 + d / 36524 - d / 146096 ≤
      (d + k) - (d + k) / 1460 + (d + k) / 36524 - (d + k) / 146096 := by
  intro k
  induction k with
  | zero => intro d; omega
  | succ k ih =>
    intro d
    calc d - d / 1460 + d / 36524 - d / 146096
        ≤ (d + k) - (d + k) / 1460 + (d + k) / 36524 - (d + k) / 146096 := ih d
      _ ≤ (d + k + 1) - (d + k + 1) / 1460 + (d + k + 1) / 36524 - (d + k + 1) / 146096 :=
          extractNum_mono_step (d + k)
      _ = (d + (k + 1)) - (d + (k + 1)) / 1460 + (d + (k + 1)) / 36524
            - (d + (k + 1)) / 146096 := by ring_nf

theorem extractYoe_mono {d₁ d₂ : Nat} (h : d₁ ≤ d₂) : extractYoe d₁ ≤ extractYoe d₂ := by
  obtain ⟨k, rfl⟩ : ∃ k, d₂ = d₁ + k := ⟨d₂ - d₁, by omega⟩
  exact Nat.div_le_div_right (extractNum_mono k d₁)


theorem yoeOk_spec {yoe : Nat} (h : yoe < 400) :
    eraSS yoe < eraSS (yoe + 1) ∧
    extractYoe (eraSS yoe) = yoe ∧
    extractYoe (eraSS (yoe + 1) - 1) = yoe ∧
    (eraSS (yoe + 1) - eraSS yoe = 366 ↔ isLeap (yoe + 1) = true) ∧
    eraSS (yoe + 1) - eraSS yoe ≤ 366 := by
  have hok := yoeOk_of_lt h
  rw [yoeOk] at hok
  simp only [Bool.and_eq_true, decide_eq_true_eq] at hok
  obtain ⟨⟨⟨⟨h1, h2⟩, h3⟩, h4⟩, h5⟩ := hok
  have h4' : decide (eraSS (yoe + 1) - eraSS yoe = 366) = isLeap (yoe + 1) :=
    beq_iff_eq.mp h4
  refine ⟨h1, h2, h3, ?_, h5⟩
  rw [← h4', decide_eq_true_eq]

theorem doyOk_spec {doy : Nat} (h : doy < 366) :
    cfgMp doy < 12 ∧ (153 * cfgMp doy + 2) / 5 ≤ doy ∧
    (10 ≤ cfgMp doy ↔ 306 ≤ doy) ∧
    (cfgMp doy = 11 → cfgD doy ≤ 29 ∧ (cfgD doy = 29 ↔ doy = 365)) ∧
    (cfgMp doy ≠ 11 → cfgD doy ≤ monthLen (cfgMp doy)) := by
  have hok := doyOk_of_lt h
  rw [doyOk] at hok
  by_cases h11 : cfgMp doy = 11
  · rw [if_pos h11] at hok
    simp only [Bool.and_eq_true, decide_eq_true_eq, beq_iff_eq, decide_eq_decide] at hok
    obtain ⟨⟨⟨ha, hb⟩, hc⟩, hd1, hd2⟩ := hok
    exact ⟨ha, hb, hc, fun _ => ⟨hd1, hd2⟩, fun hcon => absurd h11 hcon⟩
  · rw [if_neg h11] at hok
    simp only [Bool.and_eq_true, decide_eq_true_eq, beq_iff_eq, decide_eq_decide] at hok
    obtain ⟨⟨⟨ha, hb⟩, hc⟩, hd⟩ := hok
    exact ⟨ha, hb, hc, fun hcon => absurd hcon h11, fun _ => hd⟩

theorem isLeap_mod (x : Nat) : isLeap x = isLeap (x % 400) := by
  unfold isLeap
  rw [Nat.mod_mod_of_dvd x (by norm_num : (4 : Nat) ∣ 400),
    Nat.mod_mod_of_dvd x (by norm_num : (100 : Nat) ∣ 400),
    Nat.mod_mod_of_dvd x (by norm_num : (400 : Nat) ∣ 400)]

theorem yoe_bracket (doe : Nat) (h : doe < 146097) :
    ∃ yoe, yoe < 400 ∧ eraSS yoe ≤ doe ∧ doe < eraSS (yoe + 1) := by
  classical
  have hP0 : eraSS 0 ≤ doe := by
    show (if (0 : Nat) = 400 then 146097 else eraS 0) ≤ doe
    norm_num [eraS]
  have hle : Nat.findGreatest (fun y => eraSS y ≤ doe) 399 ≤ 399 :=
    Nat.findGreatest_le (P := fun y => eraSS y ≤ doe) 399
  have hspec : eraSS (Nat.findGreatest (fun y => eraSS y ≤ doe) 399) ≤ doe :=
    Nat.findGreatest_spec (P := fun y => eraSS y ≤ doe) (Nat.zero_le 399) hP0
  refine ⟨Nat.findGreatest (fun y => eraSS y ≤ doe) 399, by omega, hspec, ?_⟩
  by_cases h399 : Nat.findGreatest (fun y => eraSS y ≤ doe) 399 = 399
  · rw [h399]
    have h400 : eraSS (399 + 1) = 146097 := by norm_num [eraSS]
    omega
  · have hgt : ¬(fun y => eraSS y ≤ doe) (Nat.findGreatest (fun y => eraSS y ≤ doe) 399 + 1) :=
      Nat.findGreatest_is_greatest (P := fun y => eraSS y ≤ doe) (n := 399)
        (k := Nat.findGreatest (fun y => eraSS y ≤ doe) 399 + 1)
        (by omega) (by omega)
    simp only [not_le] at hgt
    exact hgt

/-- Civil date (year, month, day) from shifted day number `g` (i.e.
`g = days-since-epoch + 865565`); this is cctz's `civil_from_days` with the
era arithmetic shifted by one 400-year era so it stays in `Nat`. -/
def civilFromG (g : Nat) : Nat × Nat × Nat :=
  let doe := g % 146097
  let doy := doe - eraS (extractYoe doe)
  (g / 146097 * 400 + extractYoe doe + (if cfgMo doy ≤ 2 then 1 else 0) - 400,
   cfgMo doy, cfgD doy)

/-- Shifted day number from a civil date; this is cctz's `days_from_civil`
with the era arithmetic shifted by one 400-year era (result =
days-since-epoch + 865565). -/
def gFromCivil (y mo d : Nat) : Nat :=
  (y + 400 - (if mo ≤ 2 then 1 else 0)) / 400 * 146097 +
    (eraS ((y + 400 - (if mo ≤ 2 then 1 else 0)) % 400) +
      ((153 * ((mo + 9) % 12) + 2) / 5 + d - 1))

theorem daysInMonth_eq_monthLen (y mp : Nat) (hmp : mp < 12) (h11 : mp ≠ 11) :
    daysInMonth y (if mp < 10 then mp + 3 else mp - 9) = monthLen mp := by
  interval_cases mp <;> first | rfl | exact absurd rfl h11

theorem extractYoe_eq_of_bracket {yoe doe : Nat} (hy : yoe < 400)
    (h1 : eraSS yoe ≤ doe) (h2 : doe < eraSS (yoe + 1)) : extractYoe doe = yoe := by
  obtain ⟨_, hlo, hhi, _, _⟩ := yoeOk_spec hy
  have m1 : yoe ≤ extractYoe doe := by
    calc yoe = extractYoe (eraSS yoe) := hlo.symm
      _ ≤ extractYoe doe := extractYoe_mono h1
  have m2 : extractYoe doe ≤ yoe := by
    calc extractYoe doe ≤ extractYoe (eraSS (yoe + 1) - 1) := extractYoe_mono (by omega)
      _ = yoe := hhi
  omega

theorem civilFromG_spec (g : Nat) (hg1 : 146037 ≤ g) (hg2 : g ≤ 3798461) :
    ∃ y mo d, civilFromG g = (y, mo, d) ∧
      y ≤ 9999 ∧ 1 ≤ mo ∧ mo ≤ 12 ∧ 1 ≤ d ∧ d ≤ daysInMonth y mo ∧
      gFromCivil y mo d = g := by
  have hdoelt : g % 146097 < 146097 := Nat.mod_lt _ (by norm_num)
  obtain ⟨yoe₀, hylt, hylo0, hyhi0⟩ := yoe_bracket (g % 146097) hdoelt
  have hssy : eraSS yoe₀ = eraS yoe₀ := by
    rw [eraSS, if_neg (by omega)]
  have hylo : eraS yoe₀ ≤ g % 146097 := hssy ▸ hylo0
  have hyoe : extractYoe (g % 146097) = yoe₀ := extractYoe_eq_of_bracket hylt hylo0 hyhi0
  obtain ⟨hstep, _, _, hleapiff, hlen366⟩ := yoeOk_spec hylt
  have hlen366' : eraSS (yoe₀ + 1) - eraS yoe₀ ≤ 366 := by
    rw [← hssy]; exact hlen366
  have hleapiff' : eraSS (yoe₀ + 1) - eraS yoe₀ = 366 ↔ isLeap (yoe₀ + 1) = true := by
    rw [← hssy]; exact hleapiff
  have hdoylt : g % 146097 - eraS yoe₀ < 366 := by omega
  obtain ⟨hmp12, hqle, hmp10, hfeb, hnfeb⟩ := doyOk_spec hdoylt
  have hd1 : 1 ≤ cfgD (g % 146097 - eraS yoe₀) := by
    rw [cfgD]; omega
  have hdval : cfgD (g % 146097 - eraS yoe₀) =
      (g % 146097 - eraS yoe₀) - (153 * cfgMp (g % 146097 - eraS yoe₀) + 2) / 5 + 1 := by
    rw [cfgD]
  have hmoval : cfgMo (g % 146097 - eraS yoe₀) =
      if cfgMp (g % 146097 - eraS yoe₀) < 10 then cfgMp (g % 146097 - eraS yoe₀) + 3
      else cfgMp (g % 146097 - eraS yoe₀) - 9 := by
    rw [cfgMo]
  have hmo112 : 1 ≤ cfgMo (g % 146097 - eraS yoe₀) ∧ cfgMo (g % 146097 - eraS yoe₀) ≤ 12 := by
    rw [hmoval]; split <;> omega
  have hmole2 : cfgMo (g % 146097 - eraS yoe₀) ≤ 2 ↔ 10 ≤ cfgMp (g % 146097 - eraS yoe₀) := by
    rw [hmoval]; split <;> omega
  have hS399v : eraS 399 = 145731 := by norm_num [eraS]
  obtain ⟨bv, hbv, hbviff⟩ :
      ∃ bv, (if cfgMo (g % 146097 - eraS yoe₀) ≤ 2 then 1 else 0) = bv ∧
        (bv = 1 ↔ cfgMo (g % 146097 - eraS yoe₀) ≤ 2) := by
    by_cases hm : cfgMo (g % 146097 - eraS yoe₀) ≤ 2
    · exact ⟨1, by rw [if_pos hm], by simp [hm]⟩
    · exact ⟨0, by rw [if_neg hm], by simp [hm]⟩
  have hbvle : bv ≤ 1 := by
    split at hbv <;> omega
  have hback : g / 146097 * 400 + yoe₀ + bv ≥ 400 := by
    rcases Nat.eq_zero_or_pos (g / 146097) with h0 | hpos
    · have hgdoe : g % 146097 = g := by omega
      have hy399 : yoe₀ = 399 := by
        have hS399ss : eraSS 399 = 145731 := by
          rw [eraSS, if_neg (by norm_num)]; exact hS399v
        have hS400ss : eraSS (399 + 1) = 146097 := by
          norm_num [eraSS]
        have hb1 : eraSS 399 ≤ g % 146097 := by omega
        have hb2 : g % 146097 < eraSS (399 + 1) := by omega
        have := extractYoe_eq_of_bracket (by norm_num : (399 : Nat) < 400) hb1 hb2
        omega
      have h306 : 306 ≤ g % 146097 - eraS yoe₀ := by
        rw [hy399, hS399v]; omega
      have hbv1 : bv = 1 := hbviff.mpr (hmole2.mpr (hmp10.mpr h306))
      omega
    · omega
  refine ⟨g / 146097 * 400 + yoe₀ + bv - 400,
    cfgMo (g % 146097 - eraS yoe₀), cfgD (g % 146097 - eraS yoe₀), ?_, ?_, hmo112.1,
    hmo112.2, hd1, ?_, ?_⟩
  · -- the tuple is the result of civilFromG
    simp only [civilFromG]
    rw [hyoe, hbv]
  · -- year bound
    rcases Nat.lt_or_ge (g / 146097) 25 with h24 | h25
    · omega
    · have hera25 : g / 146097 = 25 := by omega
      by_cases hy399 : yoe₀ = 399
      · have hbv0 : bv = 0 := by
          by_contra hne
          have hbv1 : bv = 1 := by omega
          have h306 : 306 ≤ g % 146097 - eraS yoe₀ := hmp10.mp (hmole2.mp (hbviff.mp hbv1))
          rw [hy399, hS399v] at h306 hylo
          omega
        omega
      · omega
  · -- day-of-month bound
    have hymod : (g / 146097 * 400 + yoe₀ + bv - 400) % 400 = (yoe₀ + bv) % 400 := by
      omega
    by_cases h11 : cfgMp (g % 146097 - eraS yoe₀) = 11
    · -- February
      have hmo2 : cfgMo (g % 146097 - eraS yoe₀) = 2 := by
        rw [hmoval, if_neg (by omega), h11]
      have hbv1 : bv = 1 := hbviff.mpr (by omega)
      obtain ⟨hd29, hd29iff⟩ := hfeb h11
      rcases Nat.lt_or_ge (cfgD (g % 146097 - eraS yoe₀)) 29 with hlt | hge29
      · rw [hmo2, daysInMonth]
        norm_num
        split <;> omega
      · have hdeq : cfgD (g % 146097 - eraS yoe₀) = 29 := by omega
        have hdoy365 : g % 146097 - eraS yoe₀ = 365 := hd29iff.mp hdeq
        have hleap : isLeap (yoe₀ + 1) = true := by
          apply hleapiff'.mp
          omega
        have hyleap : isLeap (g / 146097 * 400 + yoe₀ + bv - 400) = true := by
          rw [isLeap_mod, hymod, ← isLeap_mod, hbv1]
          exact hleap
        rw [hmo2, daysInMonth]
        norm_num
        rw [if_pos hyleap]
        omega
    · -- any other month: the length does not depend on the year
      have hdlen := hnfeb h11
      rw [hmoval, daysInMonth_eq_monthLen _ _ hmp12 h11]
      exact hdlen
  · -- forward direction: gFromCivil inverts civilFromG
    rw [gFromCivil, hbv]
    have hy1 : g / 146097 * 400 + yoe₀ + bv - 400 + 400 - bv = g / 146097 * 400 + yoe₀ := by
      omega
    rw [hy1]
    have hdiv : (g / 146097 * 400 + yoe₀) / 400 = g / 146097 := by omega
    have hmod : (g / 146097 * 400 + yoe₀) % 400 = yoe₀ := by omega
    rw [hdiv, hmod]
    have hmpval : (cfgMo (g % 146097 - eraS yoe₀) + 9) % 12 = cfgMp (g % 146097 - eraS yoe₀) := by
      rw [hmoval]
      split <;> omega
    rw [hmpval]
    have hdoyrt : (153 * cfgMp (g % 146097 - eraS yoe₀) + 2) / 5 +
        cfgD (g % 146097 - eraS yoe₀) - 1 = g % 146097 - eraS yoe₀ := by
      omega
    rw [hdoyrt]
    omega

/-! ## Time points and timestamp formatting/parsing -/

/-- `cache::dump::TimePoint`: a `system_clock` time point at microsecond
resolution, represented as microseconds since the Unix epoch. -/
abbrev TimePoint := Int

/-- Modelled from the spec: `utils::datetime::Timestring(t, "UTC",
"%Y-%m-%dT%H:%M:%E6S")` is not among the extracted sources; per §3.5 it renders
the UTC instant with zero-padded fields and exactly six fractional digits,
through the proleptic-Gregorian calendar (cctz). -/
def timestringMicros (t : TimePoint) : List Char :=
  let tod := (t % 86400000000).toNat
  let c := civilFromG (t / 86400000000 + 865565).toNat
  padNum 4 c.1 ++ ('-') :: padNum 2 c.2.1 ++ ('-') :: padNum 2 c.2.2 ++
    ('T') :: padNum 2 (tod / 3600000000) ++
    (':') :: padNum 2 (tod % 3600000000 / 60000000) ++
    (':') :: padNum 2 (tod % 60000000 / 1000000) ++
    ('.') :: padNum 6 (tod % 1000000)

/-- Modelled from the spec: `utils::datetime::Stringtime(s, "UTC",
"%Y-%m-%dT%H:%M:%E6S")` is not among the extracted sources; it parses the
already-scanned decimal fields, rejecting out-of-range calendar dates and
times of day (`DumpManager::ParseDumpName` catches the failure), and returns
the UTC instant in microseconds. -/
def stringtimeMicros (y mo d h mi s us : Nat) : Option TimePoint :=
  if 1 ≤ mo ∧ mo ≤ 12 ∧ 1 ≤ d ∧ d ≤ daysInMonth y mo ∧ h ≤ 23 ∧ mi ≤ 59 ∧ s ≤ 59 then
    some (((gFromCivil y mo d : Int) - 865565) * 86400000000 +
      (((h * 3600 + mi * 60 + s) * 1000000 + us : Nat) : Int))
  else none

/-! ## The dump file name grammar

`DumpManager::GenerateFilenameRegex` produces
`^(\d{4}-\d{2}-\d{2}T\d{2}:\d{2}:\d{2}\.\d{6})-v(\d+)$` for finalized dumps and
the same with a trailing `\.tmp` for in-progress dumps. All groups before the
version have fixed widths, so regex matching is equivalent to the following
deterministic structural parser. -/

/-- Scan exactly `k` decimal digits. -/
def takeDigits : Nat → List Char → Option (List Char × List Char)
  | 0, l => some ([], l)
  | _ + 1, [] => none
  | k + 1, c :: l =>
    if isDig c then
      match takeDigits k l with
      | some (ds, r) => some (c :: ds, r)
      | none => none
    else none

/-- Scan one expected literal character. -/
def expectChar (e : Char) : List Char → Option (List Char)
  | [] => none
  | c :: l => if c = e then some l else none

/-- Scan the fixed-width timestamp part `\d{4}-\d{2}-\d{2}T\d{2}:\d{2}:\d{2}\.\d{6}`
followed by `-v`, returning the seven numeric fields and the rest of the name. -/
def splitStamp (name : List Char) :
    Option ((Nat × Nat × Nat × Nat × Nat × Nat × Nat) × List Char) :=
  match takeDigits 4 name with
  | none => none
  | some (yS, r1) =>
  match expectChar ('-') r1 with
  | none => none
  | some r2 =>
  match takeDigits 2 r2 with
  | none => none
  | some (moS, r3) =>
  match expectChar ('-') r3 with
  | none => none
  | some r4 =>
  match takeDigits 2 r4 with
  | none => none
  | some (dS, r5) =>
  match expectChar ('T') r5 with
  | none => none
  | some r6 =>
  match takeDigits 2 r6 with
  | none => none
  | some (hS, r7) =>
  match expectChar (':') r7 with
  | none => none
  | some r8 =>
  match takeDigits 2 r8 with
  | none => none
  | some (miS, r9) =>
  match expectChar (':') r9 with
  | none => none
  | some r10 =>
  match takeDigits 2 r10 with
  | none => none
  | some (sS, r11) =>
  match expectChar ('.') r11 with
  | none => none
  | some r12 =>
  match takeDigits 6 r12 with
  | none => none
  | some (usS, r13) =>
  match expectChar ('-') r13 with
  | none => none
  | some r14 =>
  match expectChar ('v') r14 with
  | none => none
  | some r15 =>
    some ((digitsVal yS, digitsVal moS, digitsVal dS, digitsVal hS,
      digitsVal miS, digitsVal sS, digitsVal usS), r15)

/-- Match of the finalized-dump regex: the version group `(\d+)$` is the whole
rest of the name, nonempty and all digits. -/
def splitFinalized (name : List Char) :
    Option ((Nat × Nat × Nat × Nat × Nat × Nat × Nat) × List Char) :=
  match splitStamp name with
  | none => none
  | some (f, r) => if r ≠ [] ∧ r.all isDig then some (f, r) else none

def matchesFinalized (name : List Char) : Bool := (splitFinalized name).isSome

/-- Rest-of-name check for the tmp grammar: `(\d+)\.tmp$`. -/
def tmpTail (l : List Char) : Bool :=
  match l.reverse with
  | 'p' :: 'm' :: 't' :: '.' :: rev => decide (rev ≠ []) && rev.all isDig
  | _ => false

/-- Match of the tmp-dump regex `^(...)-v(\d+)\.tmp$`. -/
def matchesTmp (name : List Char) : Bool :=
  match splitStamp name with
  | none => false
  | some (_, r) => tmpTail r

/-- `utils::FromString<uint64_t>`: not among the extracted sources. Modelled
from the spec: the version is a `u64`; conversion of a digit string fails
(throws) on overflow. -/
def parseU64 (ds : List Char) : Option Nat :=
  if digitsVal ds < 2 ^ 64 then some (digitsVal ds) else none

/-! ## The dump manager -/

/-- Modelled from the spec (§3.3): `cache::dump::Config` (`dump/config.hpp` is
not among the extracted sources). The `name` field is used only for logging and
is omitted; durations are microseconds, matching `TimePoint` resolution. -/
structure DumpConfig where
  dump_directory : List Char
  dump_format_version : Nat
  max_dump_age : Option Int
  max_dump_count : Nat

/-- `cache::dump::DumpFileStats`. -/
structure DumpFileStats where
  update_time : TimePoint
  full_path : List Char
  format_version : Nat
deriving DecidableEq

def mkPath (cfg : DumpConfig) (name : List Char) : List Char :=
  cfg.dump_directory ++ ('/') :: name

/-- The file-name part of `DumpManager::GenerateDumpPath`:
`fmt::format("{}/{}-v{}", dir, Timestring(...), version)`. -/
def dumpFileName (cfg : DumpConfig) (t : TimePoint) : List Char :=
  timestringMicros t ++ ('-') :: ('v') :: natDec cfg.dump_format_version

/-- `DumpManager::GenerateDumpPath`. -/
def generateDumpPath (cfg : DumpConfig) (t : TimePoint) : List Char :=
  mkPath cfg (dumpFileName cfg t)

/-- `DumpManager::ParseDumpName` applied to a file name (directory entries
never contain `/`, so `path.filename()` is the name itself): regex-match the
finalized grammar, then parse the timestamp (`Stringtime` + `Round`, the
identity at microsecond resolution) and the version; any parse failure is
caught and turns into `none`. -/
def parseDumpName (cfg : DumpConfig) (name : List Char) : Option DumpFileStats :=
  match splitFinalized name with
  | none => none
  | some ((y, mo, d, h, mi, s, us), ds) =>
    match stringtimeMicros y mo d h mi s us, parseU64 ds with
    | some t, some v => some ⟨t, mkPath cfg name, v⟩
    | _, _ => none

/-- `TimePoint::min()`: `int64` microseconds minimum. -/
def timePointMin : Int := -(2 ^ 63)

/-- `DumpManager::MinAcceptableUpdateTime` (with `now` already rounded to
microsecond resolution, which `Round` guarantees). -/
def minAcceptableUpdateTime (cfg : DumpConfig) (now : TimePoint) : TimePoint :=
  match cfg.max_dump_age with
  | some age => now - age
  | none => timePointMin

/-- One directory-scan step of `DumpManager::GetLatestDump(const Config&)`. -/
def glStep (cfg : DumpConfig) (now : TimePoint) (best : Option DumpFileStats)
    (name : List Char) : Option DumpFileStats :=
  match parseDumpName cfg name with
  | none => best
  | some s =>
    if s.format_version ≠ cfg.dump_format_version then best
    else if s.update_time < minAcceptableUpdateTime cfg now ∧ cfg.max_dump_age.isSome then
      best
    else
      match best with
      | none => some s
      | some b => if b.update_time < s.update_time then some s else best

/-- `DumpManager::GetLatestDump(const Config&)` over the directory listing
(regular files in iteration order). -/
def getLatestDump (cfg : DumpConfig) (now : TimePoint) (dir : List (List Char)) :
    Option DumpFileStats :=
  dir.foldl (glStep cfg now) none

/-- First-pass keep decision of `DumpManager::DoCleanup`: tmp files are
removed; unparseable ("unrelated") files are kept; parseable dumps are removed
when `format_version < current` or `update_time < min_update_time`. -/
def phase1Keep (cfg : DumpConfig) (now : TimePoint) (name : List Char) : Bool :=
  if matchesTmp name then false
  else
    match parseDumpName cfg name with
    | none => true
    | some s =>
      !(decide (s.format_version < cfg.dump_format_version) ||
        decide (s.update_time < minAcceptableUpdateTime cfg now))

/-- Per-file contribution to the `dumps` vector collected by
`DumpManager::DoCleanup`: the stats of a file that survives the first pass and
has the current format version. -/
def collectStep (cfg : DumpConfig) (now : TimePoint) (name : List Char) :
    Option DumpFileStats :=
  if matchesTmp name then none
  else
    match parseDumpName cfg name with
    | none => none
    | some s =>
      if s.format_version < cfg.dump_format_version ∨
          s.update_time < minAcceptableUpdateTime cfg now then none
      else if s.format_version = cfg.dump_format_version then some s else none

/-- The `dumps` vector collected by `DumpManager::DoCleanup`. -/
def collectCurrent (cfg : DumpConfig) (now : TimePoint) (dir : List (List Char)) :
    List DumpFileStats :=
  dir.filterMap (collectStep cfg now)

/-- `std::sort` with comparator `a.update_time > b.update_time` (descending by
update time; the tie order of `std::sort` is unspecified, and no property
proved below depends on it). -/
def sortDumpsDesc (l : List DumpFileStats) : List DumpFileStats :=
  List.insertionSort (fun a b => b.update_time ≤ a.update_time) l

/-- `DumpManager::DoCleanup` on an existing directory, error-free filesystem:
returns the names of the surviving regular files. Pass one removes tmp files
and expired dumps (collecting current-version survivors); pass two removes
current-version dumps beyond the newest `max_dump_count` (deletion is by full
path, `boost::filesystem::remove(dumps[i].full_path)`). -/
def doCleanup (cfg : DumpConfig) (now : TimePoint) (dir : List (List Char)) :
    List (List Char) :=
  let excess := (sortDumpsDesc (collectCurrent cfg now dir)).drop cfg.max_dump_count
  (dir.filter (phase1Keep cfg now)).filter
    (fun name => decide (¬ mkPath cfg name ∈ excess.map DumpFileStats.full_path))

/-- `DumpManager::BumpDumpTime` on an error-free filesystem: if the finalized
file for the old time is a regular file of the directory, rename it (same
semantics as POSIX `rename`: the target is replaced if present) and return
true; otherwise return false and leave the directory unchanged. -/
def bumpDumpTime (cfg : DumpConfig) (told tnew : TimePoint) (dir : List (List Char)) :
    List (List Char) × Bool :=
  let oldName := dumpFileName cfg told
  let newName := dumpFileName cfg tnew
  if oldName ∈ dir then
    (newName :: (dir.erase oldName).filter (fun f => decide (f ≠ newName)), true)
  else (dir, false)

/-! ## Cache configuration (`cache_config.cpp`) -/

/-- `cache::CacheConfig`: the four base duration fields, in milliseconds
(`std::chrono::milliseconds`, signed). -/
structure CacheConfig where
  update_interval : Int
  update_jitter : Int
  full_update_interval : Int
  cleanup_interval : Int
deriving DecidableEq

/-- `GetDefaultJitter(interval) = interval / 10` (C++ signed integer division
truncates toward zero). -/
def getDefaultJitter (interval : Int) : Int := Int.tdiv interval 10

/-- `kDefaultCleanupInterval = std::chrono::seconds{10}`, in ms. -/
def defaultCleanupIntervalMs : Int := 10000

/-- The duration fields of a static (YAML) cache-config document, already
converted to milliseconds; `none` means the field is absent, in which case
`config[k].As<std::chrono::milliseconds>(default)` yields the default. -/
structure StaticCacheDoc where
  update_interval : Option Int
  update_jitter : Option Int
  full_update_interval : Option Int
  cleanup_interval : Option Int

/-- `CacheConfig::CacheConfig(const components::ComponentConfig&)`. -/
def cacheConfigFromStatic (doc : StaticCacheDoc) : CacheConfig :=
  { update_interval := doc.update_interval.getD 0
    update_jitter :=
      doc.update_jitter.getD (getDefaultJitter (doc.update_interval.getD 0))
    full_update_interval := doc.full_update_interval.getD 0
    cleanup_interval := doc.cleanup_interval.getD defaultCleanupIntervalMs }

/-- The `*-ms` fields of a dynamic (JSON) cache-config document; `none` means
the field is absent. -/
structure DynCacheDoc where
  update_interval_ms : Option Int
  update_jitter_ms : Option Int
  full_update_interval_ms : Option Int
  cleanup_interval_ms : Option Int

inductive ConfigError where
  | updateIntervalNotSet
deriving DecidableEq

/-- `cache::dump::impl::ParseMs`: not among the extracted sources. Modelled
from the spec (§6.2): dynamic time fields carry integer milliseconds; an
absent field yields the supplied default. -/
def parseMs (v : Option Int) (dflt : Int) : Int := v.getD dflt

/-- `CacheConfig::CacheConfig(const formats::json::Value&)`: throws when both
intervals are zero; copies the one set interval into the other; clamps the
jitter to the default when it exceeds the (final) update interval. -/
def cacheConfigFromDynamic (doc : DynCacheDoc) : Except ConfigError CacheConfig :=
  let ui := parseMs doc.update_interval_ms 0
  let uj := parseMs doc.update_jitter_ms 0
  let fui := parseMs doc.full_update_interval_ms 0
  let ci := parseMs doc.cleanup_interval_ms defaultCleanupIntervalMs
  if ui = 0 ∧ fui = 0 then Except.error ConfigError.updateIntervalNotSet
  else
    let fui2 := if fui = 0 then ui else fui
    let ui2 := if ui = 0 ∧ fui ≠ 0 then fui else ui
    let uj2 := if ui2 < uj then getDefaultJitter ui2 else uj
    Except.ok
      { update_interval := ui2, update_jitter := uj2,
        full_update_interval := fui2, cleanup_interval := ci }

inductive LruConfigError where
  | sizeNonPositive
  | waysNonPositive
deriving DecidableEq

/-- `cache::LruCacheConfig`. -/
structure LruCacheConfig where
  size : Nat
  lifetime : Int
  background_update : Bool
deriving DecidableEq

/-- `LruCacheConfig::LruCacheConfig(const components::ComponentConfig&)`:
throws if `size == 0`. -/
def lruCacheConfigFromStatic (size : Nat) (lifetime : Option Int)
    (bg : Option Bool) : Except LruConfigError LruCacheConfig :=
  if size = 0 then Except.error LruConfigError.sizeNonPositive
  else
    Except.ok
      { size := size, lifetime := lifetime.getD 0, background_update := bg.getD false }

/-- `cache::LruCacheConfigStatic`. -/
structure LruCacheConfigStatic where
  config : LruCacheConfig
  ways : Nat
deriving DecidableEq

/-- `LruCacheConfigStatic::LruCacheConfigStatic(const ComponentConfig&)`:
builds the inner `LruCacheConfig` (which throws on `size == 0`), reads `ways`,
throws if `ways <= 0`. -/
def lruCacheConfigStaticFromStatic (size ways : Nat) (lifetime : Option Int)
    (bg : Option Bool) : Except LruConfigError LruCacheConfigStatic :=
  match lruCacheConfigFromStatic size lifetime bg with
  | Except.error e => Except.error e
  | Except.ok c =>
    if ways = 0 then Except.error LruConfigError.waysNonPositive
    else Except.ok { config := c, ways := ways }

/-- `LruCacheConfigStatic::GetWaySize`. -/
def getWaySize (c : LruCacheConfigStatic) : Nat :=
  let way_size := c.config.size / c.ways
  if way_size = 0 then 1 else way_size

/-! ## Grammar lemmas -/

theorem takeDigits_exact : ∀ (ds r : List Char), (∀ c ∈ ds, isDig c = true) →
    takeDigits ds.length (ds ++ r) = some (ds, r) := by
  intro ds
  induction ds with
  | nil => intro r _; rfl
  | cons c t ih =>
    intro r hdig
    show takeDigits (t.length + 1) (c :: (t ++ r)) = _
    simp only [takeDigits]
    rw [if_pos (hdig c (by simp)), ih r (fun x hx => hdig x (by simp [hx]))]

theorem takeDigits_padNum (w n : Nat) {r : List Char} (h1 : 1 ≤ w) (h2 : n < 10 ^ w) :
    takeDigits w (padNum w n ++ r) = some (padNum w n, r) := by
  have hx := takeDigits_exact (padNum w n) r (fun c hc => mem_padNum_isDig w n c hc)
  rwa [length_padNum h1 h2] at hx

theorem expectChar_cons (e : Char) (r : List Char) : expectChar e (e :: r) = some r := by
  simp [expectChar]

theorem splitStamp_format (y mo d h mi s us : Nat) (r : List Char)
    (hy : y < 10 ^ 4) (hmo : mo < 10 ^ 2) (hd : d < 10 ^ 2) (hh : h < 10 ^ 2)
    (hmi : mi < 10 ^ 2) (hs : s < 10 ^ 2) (hus : us < 10 ^ 6) :
    splitStamp (padNum 4 y ++ ('-') :: (padNum 2 mo ++ ('-') :: (padNum 2 d ++
      ('T') :: (padNum 2 h ++ (':') :: (padNum 2 mi ++ (':') :: (padNum 2 s ++
      ('.') :: (padNum 6 us ++ ('-') :: ('v') :: r))))))) =
      some ((y, mo, d, h, mi, s, us), r) := by
  simp only [splitStamp, takeDigits_padNum 4 y (by norm_num) hy,
    takeDigits_padNum 2 mo (by norm_num) hmo, takeDigits_padNum 2 d (by norm_num) hd,
    takeDigits_padNum 2 h (by norm_num) hh, takeDigits_padNum 2 mi (by norm_num) hmi,
    takeDigits_padNum 2 s (by norm_num) hs, takeDigits_padNum 6 us (by norm_num) hus,
    expectChar_cons, digitsVal_padNum]

theorem splitFinalized_format (y mo d h mi s us v : Nat)
    (hy : y < 10 ^ 4) (hmo : mo < 10 ^ 2) (hd : d < 10 ^ 2) (hh : h < 10 ^ 2)
    (hmi : mi < 10 ^ 2) (hs : s < 10 ^ 2) (hus : us < 10 ^ 6) :
    splitFinalized (padNum 4 y ++ ('-') :: (padNum 2 mo ++ ('-') :: (padNum 2 d ++
      ('T') :: (padNum 2 h ++ (':') :: (padNum 2 mi ++ (':') :: (padNum 2 s ++
      ('.') :: (padNum 6 us ++ ('-') :: ('v') :: natDec v))))))) =
      some ((y, mo, d, h, mi, s, us), natDec v) := by
  simp only [splitFinalized,
    splitStamp_format y mo d h mi s us (natDec v) hy hmo hd hh hmi hs hus]
  rw [if_pos]
  exact ⟨natDec_ne_nil v, List.all_eq_true.mpr (fun c hc => mem_natDec_isDig v c hc)⟩

theorem splitFinalized_inv {name : List Char}
    {f : Nat × Nat × Nat × Nat × Nat × Nat × Nat} {r : List Char}
    (h : splitFinalized name = some (f, r)) :
    splitStamp name = some (f, r) ∧ r ≠ [] ∧ r.all isDig = true := by
  unfold splitFinalized at h
  cases hst : splitStamp name with
  | none => rw [hst] at h; exact absurd h (by simp)
  | some p =>
    obtain ⟨f', r'⟩ := p
    rw [hst] at h
    simp only [] at h
    by_cases hc : r' ≠ [] ∧ r'.all isDig
    · rw [if_pos hc] at h
      have hpq : (f', r') = (f, r) := Option.some.inj h
      cases hpq
      exact ⟨rfl, hc.1, hc.2⟩
    · rw [if_neg hc] at h
      exact absurd h (by simp)

theorem not_tmp_of_finalized {name : List Char} (h : matchesFinalized name = true) :
    matchesTmp name = false := by
  unfold matchesFinalized at h
  cases hsf : splitFinalized name with
  | none => rw [hsf] at h; simp at h
  | some p =>
    obtain ⟨f, r⟩ := p
    obtain ⟨hst, hne, hdig⟩ := splitFinalized_inv hsf
    unfold matchesTmp
    rw [hst]
    simp only []
    cases hrev : r.reverse with
    | nil => simp [tmpTail, hrev]
    | cons c rest =>
      have hcr : c ∈ r := List.mem_reverse.mp (by rw [hrev]; simp)
      have hdc : isDig c = true := List.all_eq_true.mp hdig c hcr
      unfold tmpTail
      rw [hrev]
      split
      · rename_i rev heq
        have hcp : c = 'p' := by
          have := congrArg (fun l => l.headI) heq
          simpa using this
        subst hcp
        exact absurd hdc (by decide)
      · rfl

theorem parseDumpName_some {cfg : DumpConfig} {name : List Char} {s : DumpFileStats}
    (h : parseDumpName cfg name = some s) :
    s.full_path = mkPath cfg name ∧ matchesFinalized name = true ∧
    matchesTmp name = false := by
  unfold parseDumpName at h
  cases hsf : splitFinalized name with
  | none => rw [hsf] at h; simp at h
  | some p =>
    obtain ⟨⟨y, mo, d, hh, mi, ss, us⟩, ds⟩ := p
    rw [hsf] at h
    simp only [] at h
    have hfin : matchesFinalized name = true := by
      unfold matchesFinalized
      rw [hsf]
      rfl
    cases ht : stringtimeMicros y mo d hh mi ss us with
    | none => rw [ht] at h; simp at h
    | some t =>
      cases hv : parseU64 ds with
      | none => rw [ht, hv] at h; simp at h
      | some v =>
        rw [ht, hv] at h
        simp only [] at h
        have hs := Option.some.inj h
        refine ⟨?_, hfin, not_tmp_of_finalized hfin⟩
        rw [← hs]

theorem daysInMonth_le_31 (y mo : Nat) : daysInMonth y mo ≤ 31 := by
  unfold daysInMonth
  split
  · split <;> omega
  · split <;> omega

/-! ## Helper facts about the config constructors -/

theorem cacheConfigFromDynamic_ok {doc : DynCacheDoc} {c : CacheConfig}
    (h : cacheConfigFromDynamic doc = Except.ok c) :
    ¬(parseMs doc.update_interval_ms 0 = 0 ∧ parseMs doc.full_update_interval_ms 0 = 0) ∧
    c.update_interval =
      (if parseMs doc.update_interval_ms 0 = 0 ∧ parseMs doc.full_update_interval_ms 0 ≠ 0
        then parseMs doc.full_update_interval_ms 0 else parseMs doc.update_interval_ms 0) ∧
    c.full_update_interval =
      (if parseMs doc.full_update_interval_ms 0 = 0
        then parseMs doc.update_interval_ms 0 else parseMs doc.full_update_interval_ms 0) ∧
    c.update_jitter =
      (if c.update_interval < parseMs doc.update_jitter_ms 0
        then getDefaultJitter c.update_interval else parseMs doc.update_jitter_ms 0) := by
  simp only [cacheConfigFromDynamic] at h
  by_cases hz : parseMs doc.update_interval_ms 0 = 0 ∧ parseMs doc.full_update_interval_ms 0 = 0
  · rw [if_pos hz] at h
    exact absurd h (by simp)
  · rw [if_neg hz] at h
    have hc := Except.ok.inj h
    subst hc
    exact ⟨hz, rfl, rfl, rfl⟩

theorem cacheConfigFromDynamic_error {doc : DynCacheDoc}
    (hz : parseMs doc.update_interval_ms 0 = 0 ∧ parseMs doc.full_update_interval_ms 0 = 0) :
    cacheConfigFromDynamic doc = Except.error ConfigError.updateIntervalNotSet := by
  simp only [cacheConfigFromDynamic]
  rw [if_pos hz]

/-! ## Claim C7 -/

/-- Claim C7: constructing a `CacheConfig` from a dynamic (JSON) document
fails with an error when both `update_interval` and `full_update_interval`
are zero; when exactly one of the two is nonzero, the nonzero value is copied
into the other, so in every successfully constructed dynamic config both
intervals are nonzero. -/
theorem claim_C7_dynamic_intervals (doc : DynCacheDoc) :
    (parseMs doc.update_interval_ms 0 = 0 ∧ parseMs doc.full_update_interval_ms 0 = 0 →
      cacheConfigFromDynamic doc = Except.error ConfigError.updateIntervalNotSet) ∧
    ∀ c, cacheConfigFromDynamic doc = Except.ok c →
      c.update_interval ≠ 0 ∧ c.full_update_interval ≠ 0 ∧
      (parseMs doc.update_interval_ms 0 ≠ 0 ∧ parseMs doc.full_update_interval_ms 0 = 0 →
        c.update_interval = parseMs doc.update_interval_ms 0 ∧
        c.full_update_interval = parseMs doc.update_interval_ms 0) ∧
      (parseMs doc.update_interval_ms 0 = 0 ∧ parseMs doc.full_update_interval_ms 0 ≠ 0 →
        c.update_interval = parseMs doc.full_update_interval_ms 0 ∧
        c.full_update_interval = parseMs doc.full_update_interval_ms 0) := by
  refine ⟨cacheConfigFromDynamic_error, fun c hc => ?_⟩
  obtain ⟨hz, hui, hfui, _⟩ := cacheConfigFromDynamic_ok hc
  by_cases h1 : parseMs doc.update_interval_ms 0 = 0 <;>
    by_cases h2 : parseMs doc.full_update_interval_ms 0 = 0
  · exact absurd ⟨h1, h2⟩ hz
  · rw [hui, hfui]
    refine ⟨by simp [h1, h2], by simp [h2], fun hcon => absurd h1 hcon.1, fun _ => ?_⟩
    constructor <;> simp [h1, h2]
  · rw [hui, hfui]
    refine ⟨by simp [h1, h2], by simp [h2, h1], fun _ => ?_, fun hcon => absurd h2 hcon.2⟩
    constructor <;> simp [h1, h2]
  · rw [hui, hfui]
    refine ⟨by simp [h1, h2], by simp [h2], fun hcon => absurd hcon.2 h2,
      fun hcon => absurd hcon.1 h1⟩

/-- Claim C7 witness: with only `update-interval-ms = 7`, construction
succeeds, both intervals are 7; with both intervals absent it fails. -/
theorem claim_C7_witness :
    ((parseMs (DynCacheDoc.mk none none none none).update_interval_ms 0 = 0 ∧
        parseMs (DynCacheDoc.mk none none none none).full_update_interval_ms 0 = 0 →
      cacheConfigFromDynamic (DynCacheDoc.mk none none none none) =
        Except.error ConfigError.updateIntervalNotSet) ∧
      cacheConfigFromDynamic (DynCacheDoc.mk none none none none) =
        Except.error ConfigError.updateIntervalNotSet) ∧
    (CacheConfig.mk 7 0 7 10000).update_interval ≠ 0 ∧
    (CacheConfig.mk 7 0 7 10000).full_update_interval ≠ 0 := by
  have h1 := (claim_C7_dynamic_intervals (DynCacheDoc.mk none none none none)).1
  have h2 := (claim_C7_dynamic_intervals (DynCacheDoc.mk (some 7) none none none)).2
    (CacheConfig.mk 7 0 7 10000) rfl
  exact ⟨⟨h1, h1 (by constructor <;> rfl)⟩, h2.1, h2.2.1⟩

/-! ## Claim C6 -/

/-- Claim C6 counterexample: the claim says the clamp applies to BOTH the
static declarative shape and the dynamic shape, but the static constructor
(`CacheConfig::CacheConfig(const ComponentConfig&)`) performs no clamp: with
`update-interval: 100ms` and `update-jitter: 500ms` the constructed config
keeps `update_jitter = 500` even though 500 > 100 and the default jitter
would be 10. -/
theorem claim_C6_counterexample :
    (cacheConfigFromStatic (StaticCacheDoc.mk (some 100) (some 500) none none)).update_interval
        = 100 ∧
    (cacheConfigFromStatic (StaticCacheDoc.mk (some 100) (some 500) none none)).update_jitter
        = 500 ∧
    (100 : Int) < 500 ∧
    getDefaultJitter 100 = 10 ∧ (500 : Int) ≠ 10 := by
  refine ⟨rfl, rfl, by norm_num, ?_, by norm_num⟩
  rfl

/-- Claim C6 amended: only the dynamic (JSON) constructor clamps the jitter:
whenever the supplied `update_jitter` exceeds the (final) `update_interval`,
the resulting dynamic config's jitter is the default jitter
`update_interval / 10`. The static constructor applies the default only when
the jitter field is absent and keeps an explicitly supplied larger jitter. -/
theorem claim_C6_dynamic_jitter_clamped (doc : DynCacheDoc) (c : CacheConfig)
    (h : cacheConfigFromDynamic doc = Except.ok c)
    (hj : c.update_interval < parseMs doc.update_jitter_ms 0) :
    c.update_jitter = getDefaultJitter c.update_interval := by
  obtain ⟨_, _, _, hjit⟩ := cacheConfigFromDynamic_ok h
  rw [hjit, if_pos hj]

/-- Claim C6 witness: dynamic doc with interval 100ms and jitter 500ms yields
jitter clamped to 10ms. -/
theorem claim_C6_witness :
    cacheConfigFromDynamic (DynCacheDoc.mk (some 100) (some 500) none none) =
      Except.ok (CacheConfig.mk 100 10 100 10000) ∧
    (CacheConfig.mk 100 10 100 10000).update_interval <
      parseMs (DynCacheDoc.mk (some 100) (some 500) none none).update_jitter_ms 0 ∧
    (CacheConfig.mk 100 10 100 10000).update_jitter =
      getDefaultJitter (CacheConfig.mk 100 10 100 10000).update_interval := by
  refine ⟨rfl, by norm_num [parseMs], ?_⟩
  exact claim_C6_dynamic_jitter_clamped (DynCacheDoc.mk (some 100) (some 500) none none)
    (CacheConfig.mk 100 10 100 10000) rfl (by norm_num [parseMs])

/-! ## Claim C10 -/

/-- Claim C10: for every successfully constructed static LRU config (so
`size ≥ 1` and `ways ≥ 1`), `GetWaySize()` returns `size / ways` when that
integer quotient is nonzero, and 1 when the quotient is zero; its result is
always at least 1. -/
theorem claim_C10_getWaySize (size ways : Nat) (lifetime : Option Int) (bg : Option Bool)
    (c : LruCacheConfigStatic)
    (h : lruCacheConfigStaticFromStatic size ways lifetime bg = Except.ok c) :
    1 ≤ size ∧ 1 ≤ ways ∧ c.config.size = size ∧ c.ways = ways ∧
    getWaySize c = (if size / ways = 0 then 1 else size / ways) ∧
    1 ≤ getWaySize c := by
  unfold lruCacheConfigStaticFromStatic lruCacheConfigFromStatic at h
  by_cases hs : size = 0
  · rw [if_pos hs] at h
    exact absurd h (by simp)
  · rw [if_neg hs] at h
    simp only [] at h
    by_cases hw : ways = 0
    · rw [if_pos hw] at h
      exact absurd h (by simp)
    · rw [if_neg hw] at h
      have hc := Except.ok.inj h
      subst hc
      refine ⟨by omega, by omega, rfl, rfl, rfl, ?_⟩
      simp only [getWaySize]
      split
      · omega
      · rename_i hq
        exact Nat.pos_of_ne_zero hq

/-- Claim C10 witness: size 10, ways 3 constructs successfully and the way
size is `10 / 3 = 3 ≥ 1`. -/
theorem claim_C10_witness :
    lruCacheConfigStaticFromStatic 10 3 none none =
      Except.ok (LruCacheConfigStatic.mk (LruCacheConfig.mk 10 0 false) 3) ∧
    (1 ≤ 10 ∧ 1 ≤ 3 ∧
      (LruCacheConfigStatic.mk (LruCacheConfig.mk 10 0 false) 3).config.size = 10 ∧
      (LruCacheConfigStatic.mk (LruCacheConfig.mk 10 0 false) 3).ways = 3 ∧
      getWaySize (LruCacheConfigStatic.mk (LruCacheConfig.mk 10 0 false) 3) =
        (if 10 / 3 = 0 then 1 else 10 / 3) ∧
      1 ≤ getWaySize (LruCacheConfigStatic.mk (LruCacheConfig.mk 10 0 false) 3)) :=
  ⟨rfl, claim_C10_getWaySize 10 3 none none _ rfl⟩

/-! ## Claim C5 -/

/-- Claim C5: for `told ≤ tnew`, `BumpDumpTime` either renames exactly one
file (from the finalized name for `told` to the finalized name for `tnew`)
and returns true, or returns false and leaves the directory unchanged; it
returns false whenever the finalized file for `told` does not exist. -/
theorem claim_C5_bumpDumpTime (cfg : DumpConfig) (told tnew : TimePoint)
    (dir : List (List Char)) (hnd : dir.Nodup) (hle : told ≤ tnew) :
    (dumpFileName cfg told ∉ dir → bumpDumpTime cfg told tnew dir = (dir, false)) ∧
    (dumpFileName cfg told ∈ dir →
      (bumpDumpTime cfg told tnew dir).2 = true ∧
      dumpFileName cfg tnew ∈ (bumpDumpTime cfg told tnew dir).1 ∧
      (dumpFileName cfg told ≠ dumpFileName cfg tnew →
        dumpFileName cfg told ∉ (bumpDumpTime cfg told tnew dir).1) ∧
      ∀ f, f ≠ dumpFileName cfg told → f ≠ dumpFileName cfg tnew →
        (f ∈ (bumpDumpTime cfg told tnew dir).1 ↔ f ∈ dir)) := by
  constructor
  · intro hmem
    simp only [bumpDumpTime]
    rw [if_neg hmem]
  · intro hmem
    simp only [bumpDumpTime]
    rw [if_pos hmem]
    refine ⟨rfl, by simp, ?_, ?_⟩
    · intro hne
      simp only [List.mem_cons, List.mem_filter, decide_eq_true_eq]
      push_neg
      exact ⟨hne, fun hmem2 => absurd rfl ((hnd.mem_erase_iff).mp hmem2).1⟩
    · intro f hf1 hf2
      simp only [List.mem_cons, List.mem_filter, decide_eq_true_eq]
      constructor
      · intro hmem3
        rcases hmem3 with h1 | h2
        · exact absurd h1 hf2
        · exact (List.mem_erase_of_ne hf1).mp h2.1
      · intro hfdir
        exact Or.inr ⟨(List.mem_erase_of_ne hf1).mpr hfdir, hf2⟩

/-! ## Sample data (mirroring the repository's unit tests: format-version 5,
`BaseTime = 2015-03-22T09:00:00.000000 UTC`). -/

def sampleDirName : List Char := ("dir").data

def sampleCfg : DumpConfig :=
  { dump_directory := sampleDirName, dump_format_version := 5,
    max_dump_age := none, max_dump_count := 10 }

def sampleCfgAge : DumpConfig :=
  { dump_directory := sampleDirName, dump_format_version := 5,
    max_dump_age := some 1500000, max_dump_count := 10 }

def sampleCfgCount : DumpConfig :=
  { dump_directory := sampleDirName, dump_format_version := 5,
    max_dump_age := none, max_dump_count := 1 }

def baseTime : TimePoint := 1427014800000000

def name00v5 : List Char := ("2015-03-22T09:00:00.000000-v5").data

def name03v5 : List Char := ("2015-03-22T09:00:03.000000-v5").data

def name00v42 : List Char := ("2015-03-22T09:00:00.000000-v42").data

def name00v05 : List Char := ("2015-03-22T09:00:00.000000-v05").data

def name13bad : List Char := ("2015-13-22T09:00:00.000000-v5").data

/-- Byte-wise lexicographic strict order on names and paths. -/
def lexLt : List Char → List Char → Bool
  | [], [] => false
  | [], _ :: _ => true
  | _ :: _, [] => false
  | a :: as, b :: bs => if a < b then true else if b < a then false else lexLt as bs

/-- Claim C5 witness: bumping the base-time dump to base+3s in a directory
holding exactly that dump renames it and returns true. -/
theorem claim_C5_witness :
    (baseTime ≤ baseTime + 3000000) ∧
    dumpFileName sampleCfg baseTime ∈ [dumpFileName sampleCfg baseTime] ∧
    ((bumpDumpTime sampleCfg baseTime (baseTime + 3000000)
        [dumpFileName sampleCfg baseTime]).2 = true ∧
      dumpFileName sampleCfg (baseTime + 3000000) ∈
        (bumpDumpTime sampleCfg baseTime (baseTime + 3000000)
          [dumpFileName sampleCfg baseTime]).1 ∧
      (dumpFileName sampleCfg baseTime ≠ dumpFileName sampleCfg (baseTime + 3000000) →
        dumpFileName sampleCfg baseTime ∉
          (bumpDumpTime sampleCfg baseTime (baseTime + 3000000)
            [dumpFileName sampleCfg baseTime]).1) ∧
      ∀ f, f ≠ dumpFileName sampleCfg baseTime →
        f ≠ dumpFileName sampleCfg (baseTime + 3000000) →
        (f ∈ (bumpDumpTime sampleCfg baseTime (baseTime + 3000000)
            [dumpFileName sampleCfg baseTime]).1 ↔
          f ∈ [dumpFileName sampleCfg baseTime])) :=
  ⟨by decide, by simp,
    (claim_C5_bumpDumpTime sampleCfg baseTime (baseTime + 3000000)
      [dumpFileName sampleCfg baseTime] (by simp) (by decide)).2 (by simp)⟩

/-! ## Directory-scan lemmas -/

theorem mkPath_inj {cfg : DumpConfig} {a b : List Char} (h : mkPath cfg a = mkPath cfg b) :
    a = b := by
  unfold mkPath at h
  have h2 := List.append_cancel_left h
  injection h2

instance : IsTotal DumpFileStats (fun a b => b.update_time ≤ a.update_time) :=
  ⟨fun a b => le_total b.update_time a.update_time⟩

instance : IsTrans DumpFileStats (fun a b => b.update_time ≤ a.update_time) :=
  ⟨fun _ _ _ hab hbc => le_trans hbc hab⟩

theorem sortDumpsDesc_perm (l : List DumpFileStats) : (sortDumpsDesc l).Perm l :=
  List.perm_insertionSort _ l

theorem sortDumpsDesc_sorted (l : List DumpFileStats) :
    List.Pairwise (fun a b => b.update_time ≤ a.update_time) (sortDumpsDesc l) :=
  List.sorted_insertionSort _ l

theorem phase1Keep_iff {cfg : DumpConfig} {now : TimePoint} {name : List Char} :
    phase1Keep cfg now name = true ↔
      matchesTmp name = false ∧
      ∀ s, parseDumpName cfg name = some s →
        ¬s.format_version < cfg.dump_format_version ∧
        ¬s.update_time < minAcceptableUpdateTime cfg now := by
  unfold phase1Keep
  by_cases htmp : matchesTmp name
  · simp [htmp]
  · cases hp : parseDumpName cfg name with
    | none => simp [htmp, hp]
    | some s => simp [htmp, hp]

theorem collectStep_eq_some {cfg : DumpConfig} {now : TimePoint} {name : List Char}
    {s : DumpFileStats} :
    collectStep cfg now name = some s ↔
      matchesTmp name = false ∧ parseDumpName cfg name = some s ∧
      ¬s.format_version < cfg.dump_format_version ∧
      ¬s.update_time < minAcceptableUpdateTime cfg now ∧
      s.format_version = cfg.dump_format_version := by
  unfold collectStep
  by_cases htmp : matchesTmp name
  · simp [htmp]
  · have htmp' : matchesTmp name = false := by
      revert htmp
      cases matchesTmp name <;> simp
    cases hp : parseDumpName cfg name with
    | none => simp [htmp, hp]
    | some t =>
      rw [if_neg htmp]
      simp only []
      by_cases hab : t.format_version < cfg.dump_format_version ∨
          t.update_time < minAcceptableUpdateTime cfg now
      · rw [if_pos hab]
        constructor
        · intro hcon
          exact absurd hcon (by simp)
        · rintro ⟨_, hps, hA, hB, _⟩
          have ht : t = s := Option.some.inj hps
          subst ht
          rcases hab with hab | hab
          · exact absurd hab hA
          · exact absurd hab hB
      · rw [if_neg hab]
        push_neg at hab
        by_cases hc : t.format_version = cfg.dump_format_version
        · rw [if_pos hc]
          constructor
          · intro hts
            have ht : t = s := Option.some.inj hts
            subst ht
            exact ⟨htmp', rfl, not_lt.mpr hab.1, not_lt.mpr hab.2, hc⟩
          · rintro ⟨_, hps, _, _, _⟩
            have ht : t = s := Option.some.inj hps
            rw [ht]
        · rw [if_neg hc]
          constructor
          · intro hcon
            exact absurd hcon (by simp)
          · rintro ⟨_, hps, _, _, hver⟩
            have ht : t = s := Option.some.inj hps
            subst ht
            exact absurd hver hc

theorem mem_doCleanup {cfg : DumpConfig} {now : TimePoint} {dir : List (List Char)}
    {name : List Char} :
    name ∈ doCleanup cfg now dir ↔
      name ∈ dir ∧ phase1Keep cfg now name = true ∧
      mkPath cfg name ∉
        ((sortDumpsDesc (collectCurrent cfg now dir)).drop cfg.max_dump_count).map
          DumpFileStats.full_path := by
  unfold doCleanup
  simp only [List.mem_filter, decide_eq_true_eq]
  tauto

theorem excess_mem {cfg : DumpConfig} {now : TimePoint} {dir : List (List Char)}
    {s : DumpFileStats}
    (h : s ∈ (sortDumpsDesc (collectCurrent cfg now dir)).drop cfg.max_dump_count) :
    ∃ nm, nm ∈ dir ∧ collectStep cfg now nm = some s := by
  have h1 : s ∈ sortDumpsDesc (collectCurrent cfg now dir) := List.mem_of_mem_drop h
  have h2 : s ∈ collectCurrent cfg now dir := (sortDumpsDesc_perm _).mem_iff.mp h1
  unfold collectCurrent at h2
  exact List.mem_filterMap.mp h2

/-! ## Claim C3 -/

/-- Claim C3: after `cleanup()` completes without filesystem errors, the dump
directory contains no regular file matching the tmp grammar, no finalized
dump whose `format_version` is less than the configured current version, and,
when `max_dump_age` is set, no finalized dump whose `update_time` is older
than now minus `max_dump_age`. -/
theorem claim_C3_cleanup_postcondition (cfg : DumpConfig) (now : TimePoint)
    (dir : List (List Char)) (name : List Char) (h : name ∈ doCleanup cfg now dir) :
    matchesTmp name = false ∧
    ∀ s, parseDumpName cfg name = some s →
      cfg.dump_format_version ≤ s.format_version ∧
      ∀ a, cfg.max_dump_age = some a → now - a ≤ s.update_time := by
  obtain ⟨_, hp1, _⟩ := mem_doCleanup.mp h
  rw [phase1Keep_iff] at hp1
  refine ⟨hp1.1, fun s hs => ?_⟩
  obtain ⟨h1, h2⟩ := hp1.2 s hs
  refine ⟨le_of_not_lt h1, fun a ha => ?_⟩
  have hmin : minAcceptableUpdateTime cfg now = now - a := by
    unfold minAcceptableUpdateTime
    rw [ha]
  rw [hmin] at h2
  exact le_of_not_lt h2

/-- Claim C3 witness: cleaning `[name03v5]` with age limit 1500ms at
base+3s keeps the file, which is tmp-free, current-version and fresh. -/
theorem claim_C3_witness :
    name03v5 ∈ doCleanup sampleCfgAge (baseTime + 3000000) [name03v5] ∧
    (matchesTmp name03v5 = false ∧
      ∀ s, parseDumpName sampleCfgAge name03v5 = some s →
        sampleCfgAge.dump_format_version ≤ s.format_version ∧
        ∀ a, sampleCfgAge.max_dump_age = some a →
          (baseTime + 3000000) - a ≤ s.update_time) :=
  ⟨by decide,
    claim_C3_cleanup_postcondition sampleCfgAge (baseTime + 3000000) [name03v5] name03v5
      (by decide)⟩

/-! ## Claim C1 -/

/-- Claim C1 counterexample: the claim asserts cleanup leaves future-version
files untouched regardless of `update_time` and of `max_dump_age`; but with
`max_dump_age = 1500ms` and now = base+3s, cleanup deletes the stale
future-version dump `2015-03-22T09:00:00.000000-v42` (version 42 > current 5)
— exactly what the repository's own `CleanupByAgeTest` expects. -/
theorem claim_C1_counterexample :
    matchesFinalized name00v42 = true ∧
    (parseDumpName sampleCfgAge name00v42).map DumpFileStats.format_version = some 42 ∧
    5 < 42 ∧ sampleCfgAge.dump_format_version = 5 ∧
    sampleCfgAge.max_dump_age = some 1500000 ∧
    doCleanup sampleCfgAge (baseTime + 3000000) [name00v42] = [] := by decide

/-- Claim C1 amended: cleanup leaves a finalized-grammar file with format
version strictly greater than the configured current version untouched,
provided its `update_time` is not older than now minus `max_dump_age` (the
version and count rules never delete such a file; only the age rule can). -/
theorem claim_C1_future_version_kept (cfg : DumpConfig) (now : TimePoint)
    (dir : List (List Char)) (name : List Char) (hmem : name ∈ dir)
    (hm : matchesFinalized name = true)
    (hv : ∀ s, parseDumpName cfg name = some s →
      cfg.dump_format_version < s.format_version)
    (hage : ∀ s, parseDumpName cfg name = some s →
      ¬s.update_time < minAcceptableUpdateTime cfg now) :
    name ∈ doCleanup cfg now dir := by
  rw [mem_doCleanup]
  refine ⟨hmem, ?_, ?_⟩
  · rw [phase1Keep_iff]
    refine ⟨not_tmp_of_finalized hm, fun s hs => ⟨?_, hage s hs⟩⟩
    exact Nat.lt_asymm (hv s hs)
  · intro hpath
    rw [List.mem_map] at hpath
    obtain ⟨s, hsdrop, hspath⟩ := hpath
    obtain ⟨nm, hnmdir, hnm⟩ := excess_mem hsdrop
    obtain ⟨_, hps, _, _, hver⟩ := collectStep_eq_some.mp hnm
    obtain ⟨hpathnm, _, _⟩ := parseDumpName_some hps
    have heq : nm = name := mkPath_inj (by rw [← hspath, hpathnm])
    subst heq
    exact absurd hver (ne_of_gt (hv s hps))

/-- Claim C1 witness: without an age limit, the future-version dump survives
cleanup (the repository's `CleanupTmpTest` keeps `…-v42`). -/
theorem claim_C1_witness :
    name00v42 ∈ [name00v42] ∧ matchesFinalized name00v42 = true ∧
    name00v42 ∈ doCleanup sampleCfg baseTime [name00v42] := by
  have hp : parseDumpName sampleCfg name00v42 =
      some (DumpFileStats.mk 1427014800000000 (mkPath sampleCfg name00v42) 42) := by
    decide
  refine ⟨by simp, by decide, ?_⟩
  apply claim_C1_future_version_kept sampleCfg baseTime [name00v42] name00v42 (by simp)
    (by decide)
  · intro s hs
    rw [hp] at hs
    have := Option.some.inj hs
    subst this
    decide
  · intro s hs
    rw [hp] at hs
    have := Option.some.inj hs
    subst this
    decide

/-! ## Claim C9 -/

/-- Claim C9: a regular file whose name matches the finalized regex but whose
timestamp or version fails semantic parsing (e.g. month 13, or a version
overflowing `u64`) is treated as unrelated: `GetLatestDump` skips it without
failing and `Cleanup` preserves it. -/
theorem claim_C9_unparseable_ignored (cfg : DumpConfig) (now : TimePoint)
    (name : List Char) (l1 l2 : List (List Char))
    (hm : matchesFinalized name = true) (hp : parseDumpName cfg name = none) :
    (∀ dir, name ∈ dir → name ∈ doCleanup cfg now dir) ∧
    getLatestDump cfg now (l1 ++ name :: l2) = getLatestDump cfg now (l1 ++ l2) := by
  constructor
  · intro dir hmem
    rw [mem_doCleanup]
    refine ⟨hmem, ?_, ?_⟩
    · rw [phase1Keep_iff]
      refine ⟨not_tmp_of_finalized hm, fun s hs => ?_⟩
      rw [hp] at hs
      cases hs
    · intro hpath
      rw [List.mem_map] at hpath
      obtain ⟨s, hsdrop, hspath⟩ := hpath
      obtain ⟨nm, hnmdir, hnm⟩ := excess_mem hsdrop
      obtain ⟨_, hps, _, _, _⟩ := collectStep_eq_some.mp hnm
      obtain ⟨hpathnm, _, _⟩ := parseDumpName_some hps
      have heq : nm = name := mkPath_inj (by rw [← hspath, hpathnm])
      subst heq
      rw [hp] at hps
      cases hps
  · show List.foldl (glStep cfg now) none (l1 ++ name :: l2) =
      List.foldl (glStep cfg now) none (l1 ++ l2)
    rw [List.foldl_append, List.foldl_append, List.foldl_cons]
    congr 1
    unfold glStep
    rw [hp]

/-- Claim C9 witness: `2015-13-22T09:00:00.000000-v5` (month 13) matches the
finalized grammar, fails semantic parsing, survives cleanup and is skipped by
`GetLatestDump`. -/
theorem claim_C9_witness :
    matchesFinalized name13bad = true ∧
    parseDumpName sampleCfg name13bad = none ∧
    name13bad ∈ doCleanup sampleCfg baseTime [name13bad, name03v5] ∧
    getLatestDump sampleCfg baseTime ([] ++ name13bad :: [name03v5]) =
      getLatestDump sampleCfg baseTime ([] ++ [name03v5]) :=
  ⟨by decide, by decide,
    (claim_C9_unparseable_ignored sampleCfg baseTime name13bad [] [name03v5]
      (by decide) (by decide)).1 [name13bad, name03v5] (by simp),
    (claim_C9_unparseable_ignored sampleCfg baseTime name13bad [] [name03v5]
      (by decide) (by decide)).2⟩

/-! ## GetLatestDump characterization -/

/-- A directory entry that `GetLatestDump` accepts as a candidate: it parses
as a dump, has the current format version, and passes the age filter. -/
def isCandidate (cfg : DumpConfig) (now : TimePoint) (name : List Char) : Bool :=
  match parseDumpName cfg name with
  | none => false
  | some s =>
    decide (s.format_version = cfg.dump_format_version) &&
      !(decide (s.update_time < minAcceptableUpdateTime cfg now) && cfg.max_dump_age.isSome)

/-- The parsed update time of a directory entry (0 when it does not parse). -/
def candTime (cfg : DumpConfig) (name : List Char) : TimePoint :=
  ((parseDumpName cfg name).map DumpFileStats.update_time).getD 0

theorem isCandidate_true_iff {cfg : DumpConfig} {now : TimePoint} {name : List Char}
    {s : DumpFileStats} (hp : parseDumpName cfg name = some s) :
    isCandidate cfg now name = true ↔
      s.format_version = cfg.dump_format_version ∧
      ¬(s.update_time < minAcceptableUpdateTime cfg now ∧ cfg.max_dump_age.isSome = true) := by
  unfold isCandidate
  rw [hp]
  simp
  intro _
  constructor
  · intro h hlt
    rcases h with h | h
    · exact absurd hlt (not_lt.mpr h)
    · exact h
  · intro h
    by_cases hlt : s.update_time < minAcceptableUpdateTime cfg now
    · exact Or.inr (h hlt)
    · exact Or.inl (le_of_not_lt hlt)

theorem glStep_cand_none {cfg : DumpConfig} {now : TimePoint} {name : List Char}
    {s : DumpFileStats} (hp : parseDumpName cfg name = some s)
    (hc : isCandidate cfg now name = true) :
    glStep cfg now none name = some s := by
  obtain ⟨h1, h2⟩ := (isCandidate_true_iff hp).mp hc
  unfold glStep
  rw [hp]
  simp only []
  rw [if_neg (by simp [h1]), if_neg h2]

theorem glStep_cand_some {cfg : DumpConfig} {now : TimePoint} {name : List Char}
    {s b : DumpFileStats} (hp : parseDumpName cfg name = some s)
    (hc : isCandidate cfg now name = true) :
    glStep cfg now (some b) name =
      if b.update_time < s.update_time then some s else some b := by
  obtain ⟨h1, h2⟩ := (isCandidate_true_iff hp).mp hc
  unfold glStep
  rw [hp]
  simp only []
  rw [if_neg (by simp [h1]), if_neg h2]

theorem glStep_not_cand {cfg : DumpConfig} {now : TimePoint} {name : List Char}
    {best : Option DumpFileStats} (hc : isCandidate cfg now name = false) :
    glStep cfg now best name = best := by
  unfold glStep
  cases hp : parseDumpName cfg name with
  | none => rfl
  | some s =>
    unfold isCandidate at hc
    rw [hp] at hc
    simp only []
    by_cases h1 : s.format_version ≠ cfg.dump_format_version
    · rw [if_pos h1]
    · push_neg at h1
      rw [if_neg (by simp [h1])]
      have h2 : s.update_time < minAcceptableUpdateTime cfg now ∧
          cfg.max_dump_age.isSome = true := by
        simp [h1] at hc
        exact hc
      rw [if_pos h2]

theorem candTime_eq {cfg : DumpConfig} {name : List Char} {s : DumpFileStats}
    (hp : parseDumpName cfg name = some s) : candTime cfg name = s.update_time := by
  simp [candTime, hp]

theorem isCandidate_parse {cfg : DumpConfig} {now : TimePoint} {name : List Char}
    (hc : isCandidate cfg now name = true) : ∃ s, parseDumpName cfg name = some s := by
  unfold isCandidate at hc
  cases hp : parseDumpName cfg name with
  | none => rw [hp] at hc; exact absurd hc (by simp)
  | some s => exact ⟨s, rfl⟩

theorem getLatestDump_spec (cfg : DumpConfig) (now : TimePoint) (dir : List (List Char)) :
    (getLatestDump cfg now dir = none ↔ ∀ nm ∈ dir, isCandidate cfg now nm = false) ∧
    (∀ b, getLatestDump cfg now dir = some b →
      ∃ l1 nm l2, dir = l1 ++ nm :: l2 ∧ isCandidate cfg now nm = true ∧
        parseDumpName cfg nm = some b ∧
        (∀ f ∈ l1, isCandidate cfg now f = true → candTime cfg f < b.update_time) ∧
        (∀ f ∈ dir, isCandidate cfg now f = true → candTime cfg f ≤ b.update_time)) := by
  induction dir using List.reverseRecOn with
  | nil =>
    constructor
    · simp [getLatestDump]
    · intro b hb
      simp [getLatestDump] at hb
  | append_singleton l x ih =>
    have hstep : getLatestDump cfg now (l ++ [x]) =
        glStep cfg now (getLatestDump cfg now l) x := by
      unfold getLatestDump
      rw [List.foldl_append]
      rfl
    by_cases hcx : isCandidate cfg now x = true
    · obtain ⟨s, hp⟩ := isCandidate_parse hcx
      cases hbest : getLatestDump cfg now l with
      | none =>
        have hres : getLatestDump cfg now (l ++ [x]) = some s := by
          rw [hstep, hbest, glStep_cand_none hp hcx]
        constructor
        · rw [hres]
          constructor
          · intro hcon
            cases hcon
          · intro hall
            exact absurd hcx (by simp [hall x (by simp)])
        · intro b hb
          rw [hres] at hb
          have hsb : s = b := Option.some.inj hb
          subst hsb
          refine ⟨l, x, [], by simp, hcx, hp, ?_, ?_⟩
          · intro f hf hcf
            exact absurd hcf (by simp [ih.1.mp hbest f hf])
          · intro f hf hcf
            rcases List.mem_append.mp hf with hf | hf
            · exact absurd hcf (by simp [ih.1.mp hbest f hf])
            · rcases List.mem_singleton.mp hf with rfl
              rw [candTime_eq hp]
      | some bb =>
        have hres : getLatestDump cfg now (l ++ [x]) =
            if bb.update_time < s.update_time then some s else some bb := by
          rw [hstep, hbest, glStep_cand_some hp hcx]
        obtain ⟨lb1, nmb, lb2, hdecomp, hcnm, hpnm, hstrict, hmax⟩ := ih.2 bb hbest
        constructor
        · constructor
          · intro hcon
            rw [hres] at hcon
            split at hcon <;> cases hcon
          · intro hall
            exact absurd hcx (by simp [hall x (by simp)])
        · intro b hb
          rw [hres] at hb
          by_cases hlt : bb.update_time < s.update_time
          · rw [if_pos hlt] at hb
            have hsb : s = b := Option.some.inj hb
            subst hsb
            refine ⟨l, x, [], by simp, hcx, hp, ?_, ?_⟩
            · intro f hf hcf
              calc candTime cfg f ≤ bb.update_time := hmax f hf hcf
                _ < s.update_time := hlt
            · intro f hf hcf
              rcases List.mem_append.mp hf with hf | hf
              · calc candTime cfg f ≤ bb.update_time := hmax f hf hcf
                  _ ≤ s.update_time := le_of_lt hlt
              · rcases List.mem_singleton.mp hf with rfl
                rw [candTime_eq hp]
          · rw [if_neg hlt] at hb
            have hsb : bb = b := Option.some.inj hb
            subst hsb
            refine ⟨lb1, nmb, lb2 ++ [x], by rw [hdecomp]; simp, hcnm, hpnm, hstrict, ?_⟩
            intro f hf hcf
            rcases List.mem_append.mp hf with hf | hf
            · exact hmax f (by rw [hdecomp] at hf ⊢; exact hf) hcf
            · rcases List.mem_singleton.mp hf with rfl
              rw [candTime_eq hp]
              exact le_of_not_lt hlt
    · have hcxf : isCandidate cfg now x = false := by
        revert hcx
        cases isCandidate cfg now x <;> simp
      have hres : getLatestDump cfg now (l ++ [x]) = getLatestDump cfg now l := by
        rw [hstep, glStep_not_cand hcxf]
      constructor
      · rw [hres]
        constructor
        · intro hn nm hnm
          rcases List.mem_append.mp hnm with hnm | hnm
          · exact ih.1.mp hn nm hnm
          · rcases List.mem_singleton.mp hnm with rfl
            exact hcxf
        · intro hall
          exact ih.1.mpr (fun nm hnm => hall nm (by simp [hnm]))
      · intro b hb
        rw [hres] at hb
        obtain ⟨l1, nm, l2, hdec, hc, hpn, hstrict, hmax⟩ := ih.2 b hb
        refine ⟨l1, nm, l2 ++ [x], by rw [hdec]; simp, hc, hpn, hstrict, ?_⟩
        intro f hf hcf
        rcases List.mem_append.mp hf with hf | hf
        · exact hmax f hf hcf
        · rcases List.mem_singleton.mp hf with rfl
          exact absurd hcf (by simp [hcxf])

/-! ## Claim C2 -/

/-- Claim C2 counterexample: `…-v5` and `…-v05` both parse to version 5 with
the same update time; with `…-v5` first in directory-iteration order
`GetLatestDump` returns it (the scan keeps the first of equal-time
candidates), although `…-v05` has the lexicographically smaller path — so the
"lexicographically smallest path wins ties" part of the claim is false. -/
theorem claim_C2_counterexample :
    getLatestDump sampleCfg baseTime [name00v5, name00v05] =
      some (DumpFileStats.mk baseTime (mkPath sampleCfg name00v5) 5) ∧
    isCandidate sampleCfg baseTime name00v05 = true ∧
    candTime sampleCfg name00v05 = baseTime ∧
    candTime sampleCfg name00v5 = baseTime ∧
    lexLt (mkPath sampleCfg name00v05) (mkPath sampleCfg name00v5) = true ∧
    mkPath sampleCfg name00v5 ≠ mkPath sampleCfg name00v05 := by decide

/-- Claim C2 amended: `GetLatestDump` returns none iff no directory entry is
a candidate (parses, has the current version, passes the age filter); when it
returns a dump, that dump comes from a candidate entry whose update time is
maximal among all candidates, and among candidates sharing the maximal update
time the one encountered FIRST in directory-iteration order is returned (the
iteration order of the directory is unspecified, not necessarily
lexicographic). -/
theorem claim_C2_getLatestDump (cfg : DumpConfig) (now : TimePoint)
    (dir : List (List Char)) :
    (getLatestDump cfg now dir = none ↔ ∀ nm ∈ dir, isCandidate cfg now nm = false) ∧
    (∀ b, getLatestDump cfg now dir = some b →
      ∃ l1 nm l2, dir = l1 ++ nm :: l2 ∧ isCandidate cfg now nm = true ∧
        parseDumpName cfg nm = some b ∧
        (∀ f ∈ l1, isCandidate cfg now f = true → candTime cfg f < b.update_time) ∧
        (∀ f ∈ dir, isCandidate cfg now f = true → candTime cfg f ≤ b.update_time)) :=
  getLatestDump_spec cfg now dir

/-- Claim C2 witness: with base-time and base+3s dumps present, the base+3s
dump is returned and dominates all candidates. -/
theorem claim_C2_witness :
    ∃ l1 nm l2, [name00v5, name03v5] = l1 ++ nm :: l2 ∧
      isCandidate sampleCfg baseTime nm = true ∧
      parseDumpName sampleCfg nm =
        some (DumpFileStats.mk (baseTime + 3000000) (mkPath sampleCfg name03v5) 5) ∧
      (∀ f ∈ l1, isCandidate sampleCfg baseTime f = true →
        candTime sampleCfg f <
          (DumpFileStats.mk (baseTime + 3000000) (mkPath sampleCfg name03v5) 5).update_time) ∧
      (∀ f ∈ [name00v5, name03v5], isCandidate sampleCfg baseTime f = true →
        candTime sampleCfg f ≤
          (DumpFileStats.mk (baseTime + 3000000) (mkPath sampleCfg name03v5) 5).update_time) :=
  (claim_C2_getLatestDump sampleCfg baseTime [name00v5, name03v5]).2
    (DumpFileStats.mk (baseTime + 3000000) (mkPath sampleCfg name03v5) 5) (by decide)

/-! ## Counting machinery for cleanup-by-count -/

/-- A directory entry that parses as a dump with the current format version. -/
def isCurrentDump (cfg : DumpConfig) (name : List Char) : Bool :=
  match parseDumpName cfg name with
  | none => false
  | some s => decide (s.format_version = cfg.dump_format_version)

theorem isSome_collectStep_iff {cfg : DumpConfig} {now : TimePoint} {name : List Char} :
    (collectStep cfg now name).isSome = true ↔
      isCurrentDump cfg name = true ∧ phase1Keep cfg now name = true := by
  constructor
  · intro h
    obtain ⟨s, hf⟩ := Option.isSome_iff_exists.mp h
    obtain ⟨ht, hp, hA, hB, hv⟩ := collectStep_eq_some.mp hf
    refine ⟨by simp [isCurrentDump, hp, hv], ?_⟩
    rw [phase1Keep_iff]
    refine ⟨ht, fun t ht' => ?_⟩
    have hts : t = s := by
      rw [hp] at ht'
      exact (Option.some.inj ht').symm
    subst hts
    exact ⟨hA, hB⟩
  · rintro ⟨hcur, hkeep⟩
    unfold isCurrentDump at hcur
    cases hp : parseDumpName cfg name with
    | none => rw [hp] at hcur; exact absurd hcur (by simp)
    | some s =>
      rw [hp] at hcur
      simp at hcur
      rw [phase1Keep_iff] at hkeep
      obtain ⟨ht, hcond⟩ := hkeep
      obtain ⟨hA, hB⟩ := hcond s hp
      rw [show collectStep cfg now name = some s from
        collectStep_eq_some.mpr ⟨ht, hp, hA, hB, hcur⟩]
      rfl

theorem length_filterMap_isSome {α β : Type} (f : α → Option β) (l : List α) :
    (l.filterMap f).length = (l.filter (fun a => (f a).isSome)).length := by
  induction l with
  | nil => rfl
  | cons a t ih =>
    cases hf : f a <;> simp [List.filterMap_cons, hf, List.filter_cons, ih]

theorem collectCurrent_map_path (cfg : DumpConfig) (now : TimePoint)
    (dir : List (List Char)) :
    (collectCurrent cfg now dir).map DumpFileStats.full_path =
      (dir.filter (fun nm => (collectStep cfg now nm).isSome)).map (mkPath cfg) := by
  induction dir with
  | nil => rfl
  | cons a t ih =>
    unfold collectCurrent at ih ⊢
    cases hf : collectStep cfg now a with
    | none => simp [List.filterMap_cons, hf, List.filter_cons, ih]
    | some s =>
      have hpath : s.full_path = mkPath cfg a := by
        obtain ⟨_, hps, _, _, _⟩ := collectStep_eq_some.mp hf
        exact (parseDumpName_some hps).1
      simp [List.filterMap_cons, hf, List.filter_cons, ih, hpath]

theorem length_filter_not_mem {α : Type} [DecidableEq α] (p : α → Bool) :
    ∀ (ps sub : List α), ps.Nodup → sub.Nodup → sub ⊆ ps →
      (∀ x ∈ ps, (p x = true ↔ ¬ x ∈ sub)) →
      (ps.filter p).length = ps.length - sub.length := by
  intro ps
  induction ps with
  | nil =>
    intro sub _ _ hsub _
    rw [List.subset_nil.mp hsub]
    rfl
  | cons a t ih =>
    intro sub hnps hnsub hsub hchar
    have hpt : a ∉ t := (List.nodup_cons.mp hnps).1
    have hnt : t.Nodup := (List.nodup_cons.mp hnps).2
    have hpa := hchar a (List.mem_cons_self a t)
    by_cases hp : a ∈ sub
    · have hpa2 : p a = false := by
        cases hpe : p a
        · rfl
        · exact absurd hp (hpa.mp hpe)
      have hlen : sub.length = (sub.erase a).length + 1 := by
        rw [List.length_erase_of_mem hp]
        have hpos := List.length_pos_of_mem hp
        omega
      have hchar2 : ∀ x ∈ t, (p x = true ↔ ¬ x ∈ sub.erase a) := by
        intro x hx
        have hxa : x ≠ a := fun he => hpt (he ▸ hx)
        rw [List.mem_erase_of_ne hxa]
        exact hchar x (List.mem_cons_of_mem a hx)
      have hsub2 : sub.erase a ⊆ t := by
        intro x hx
        have hxs : x ∈ sub := List.mem_of_mem_erase hx
        have hxa : x ≠ a := (hnsub.mem_erase_iff.mp hx).1
        rcases List.mem_cons.mp (hsub hxs) with he | ht
        · exact absurd he hxa
        · exact ht
      have hrec := ih (sub.erase a) hnt (hnsub.erase a) hsub2 hchar2
      have hle : (sub.erase a).length ≤ t.length :=
        (List.subperm_of_subset (hnsub.erase a) hsub2).length_le
      simp only [List.filter_cons]
      rw [if_neg (by simp [hpa2]), hrec]
      simp only [List.length_cons]
      omega
    · have hpa2 : p a = true := hpa.mpr hp
      have hsub2 : sub ⊆ t := by
        intro x hx
        rcases List.mem_cons.mp (hsub hx) with he | ht
        · subst he; exact absurd hx hp
        · exact ht
      have hchar2 : ∀ x ∈ t, (p x = true ↔ ¬ x ∈ sub) :=
        fun x hx => hchar x (List.mem_cons_of_mem a hx)
      have hrec := ih sub hnt hnsub hsub2 hchar2
      have hle : sub.length ≤ t.length :=
        (List.subperm_of_subset hnsub hsub2).length_le
      simp only [List.filter_cons]
      rw [if_pos hpa2]
      simp only [List.length_cons]
      omega

theorem doCleanup_filter_current (cfg : DumpConfig) (now : TimePoint)
    (dir : List (List Char)) :
    (doCleanup cfg now dir).filter (isCurrentDump cfg) =
      (dir.filter (fun nm => (collectStep cfg now nm).isSome)).filter
        (fun nm => decide (¬ mkPath cfg nm ∈
          ((sortDumpsDesc (collectCurrent cfg now dir)).drop cfg.max_dump_count).map
            DumpFileStats.full_path)) := by
  unfold doCleanup
  rw [List.filter_filter, List.filter_filter, List.filter_filter]
  apply List.filter_congr
  intro x hx
  have hQ : (collectStep cfg now x).isSome =
      (isCurrentDump cfg x && phase1Keep cfg now x) := by
    rcases Bool.eq_false_or_eq_true (isCurrentDump cfg x && phase1Keep cfg now x) with h | h
    · rw [h]
      rw [Bool.and_eq_true] at h
      exact isSome_collectStep_iff.mpr h
    · rw [h]
      rcases Bool.eq_false_or_eq_true ((collectStep cfg now x).isSome) with h2 | h2
      · exfalso
        obtain ⟨h3, h4⟩ := isSome_collectStep_iff.mp h2
        rw [h3, h4] at h
        simp at h
      · exact h2
  simp only [hQ]
  cases isCurrentDump cfg x <;> cases phase1Keep cfg now x <;> simp

theorem doCleanup_current_count (cfg : DumpConfig) (now : TimePoint)
    (dir : List (List Char)) (hnd : dir.Nodup) :
    ((doCleanup cfg now dir).filter (isCurrentDump cfg)).length =
      min cfg.max_dump_count (collectCurrent cfg now dir).length := by
  rw [doCleanup_filter_current]
  have hinj : Function.Injective (mkPath cfg) := fun a b h => mkPath_inj h
  set K := dir.filter (fun nm => (collectStep cfg now nm).isSome) with hK
  set sub := ((sortDumpsDesc (collectCurrent cfg now dir)).drop cfg.max_dump_count).map
    DumpFileStats.full_path with hsub
  have hfilter : (K.filter (fun nm => decide (¬ mkPath cfg nm ∈ sub))).length =
      ((K.map (mkPath cfg)).filter (fun p => decide (¬ p ∈ sub))).length := by
    rw [List.filter_map, List.length_map]
    congr 1
  rw [hfilter]
  have hKnd : K.Nodup := hnd.filter _
  have hPSnd : (K.map (mkPath cfg)).Nodup := hKnd.map hinj
  have hperm : ((sortDumpsDesc (collectCurrent cfg now dir)).map
      DumpFileStats.full_path).Perm (K.map (mkPath cfg)) := by
    rw [← collectCurrent_map_path]
    exact (sortDumpsDesc_perm _).map _
  have hsubsub : sub ⊆ K.map (mkPath cfg) := by
    intro p hp
    rw [hsub] at hp
    exact hperm.mem_iff.mp (List.map_subset _ (List.drop_subset _ _) hp)
  have hsubnd : sub.Nodup := by
    have h2 : ((sortDumpsDesc (collectCurrent cfg now dir)).map
        DumpFileStats.full_path).Nodup := hperm.nodup_iff.mpr hPSnd
    rw [hsub]
    exact h2.sublist ((List.drop_sublist _ _).map _)
  have hcount := length_filter_not_mem (fun q => decide (¬ q ∈ sub))
    (K.map (mkPath cfg)) sub hPSnd hsubnd hsubsub (fun x _ => by simp)
  have hM : (K.map (mkPath cfg)).length = (collectCurrent cfg now dir).length := by
    rw [List.length_map, hK]
    exact (length_filterMap_isSome _ dir).symm
  have hsublen : sub.length =
      (collectCurrent cfg now dir).length - cfg.max_dump_count := by
    rw [hsub, List.length_map, List.length_drop,
      (sortDumpsDesc_perm (collectCurrent cfg now dir)).length_eq]
  refine hcount.trans ?_
  omega

theorem doCleanup_newest_kept (cfg : DumpConfig) (now : TimePoint)
    (dir : List (List Char)) :
    ∀ f ∈ doCleanup cfg now dir, isCurrentDump cfg f = true →
      ∀ g ∈ dir, (collectStep cfg now g).isSome = true →
        g ∉ doCleanup cfg now dir → candTime cfg g ≤ candTime cfg f := by
  intro f hf hcf g hg hgs hgnot
  obtain ⟨hfdir, hfkeep, hfpath⟩ := mem_doCleanup.mp hf
  have hfs : (collectStep cfg now f).isSome = true :=
    isSome_collectStep_iff.mpr ⟨hcf, hfkeep⟩
  obtain ⟨sf, hsf⟩ := Option.isSome_iff_exists.mp hfs
  obtain ⟨sg, hsg⟩ := Option.isSome_iff_exists.mp hgs
  have hsfmem : sf ∈ sortDumpsDesc (collectCurrent cfg now dir) := by
    apply (sortDumpsDesc_perm _).mem_iff.mpr
    exact List.mem_filterMap.mpr ⟨f, hfdir, hsf⟩
  have hsf_take : sf ∈ (sortDumpsDesc (collectCurrent cfg now dir)).take
      cfg.max_dump_count := by
    have hsplit :=
      (List.take_append_drop cfg.max_dump_count
        (sortDumpsDesc (collectCurrent cfg now dir))).symm
    rw [hsplit] at hsfmem
    rcases List.mem_append.mp hsfmem with h | h
    · exact h
    · exfalso
      apply hfpath
      rw [List.mem_map]
      refine ⟨sf, h, ?_⟩
      obtain ⟨_, hps, _, _, _⟩ := collectStep_eq_some.mp hsf
      exact (parseDumpName_some hps).1
  have hsg_drop : sg ∈ (sortDumpsDesc (collectCurrent cfg now dir)).drop
      cfg.max_dump_count := by
    have hgkeep : phase1Keep cfg now g = true := (isSome_collectStep_iff.mp hgs).2
    have hgpath : mkPath cfg g ∈
        ((sortDumpsDesc (collectCurrent cfg now dir)).drop cfg.max_dump_count).map
          DumpFileStats.full_path := by
      by_contra hnp
      exact hgnot (mem_doCleanup.mpr ⟨hg, hgkeep, hnp⟩)
    rw [List.mem_map] at hgpath
    obtain ⟨s, hsdrop, hspath⟩ := hgpath
    obtain ⟨nm, hnmdir, hnm⟩ := excess_mem hsdrop
    obtain ⟨_, hps, _, _, _⟩ := collectStep_eq_some.mp hnm
    have hnmg : nm = g := mkPath_inj (by rw [← (parseDumpName_some hps).1, hspath])
    subst hnmg
    rw [hnm] at hsg
    rw [Option.some.inj hsg] at hsdrop
    exact hsdrop
  have hpw := sortDumpsDesc_sorted (collectCurrent cfg now dir)
  rw [(List.take_append_drop cfg.max_dump_count
      (sortDumpsDesc (collectCurrent cfg now dir))).symm,
    List.pairwise_append] at hpw
  have hle : sg.update_time ≤ sf.update_time := hpw.2.2 sf hsf_take sg hsg_drop
  obtain ⟨_, hpsf, _, _, _⟩ := collectStep_eq_some.mp hsf
  obtain ⟨_, hpsg, _, _, _⟩ := collectStep_eq_some.mp hsg
  rw [candTime_eq hpsg, candTime_eq hpsf]
  exact hle

/-! ## Claim C4 -/

/-- Claim C4: after DoCleanup with max_dump_count = N on a duplicate-free
directory listing, the number of remaining dumps with the current format
version equals min N M, where M is the number of current-version dumps that
survive the first cleanup phase — in particular at most N remain — and the
kept current-version dumps are the newest ones: every dump eligible for the
count rule that was removed has update_time at most that of every kept
current-version dump. -/
theorem claim_C4_cleanup_count (cfg : DumpConfig) (now : TimePoint)
    (dir : List (List Char)) (hnd : dir.Nodup) :
    ((doCleanup cfg now dir).filter (isCurrentDump cfg)).length =
      min cfg.max_dump_count (collectCurrent cfg now dir).length ∧
    (∀ f ∈ doCleanup cfg now dir, isCurrentDump cfg f = true →
      ∀ g ∈ dir, (collectStep cfg now g).isSome = true →
        g ∉ doCleanup cfg now dir → candTime cfg g ≤ candTime cfg f) :=
  ⟨doCleanup_current_count cfg now dir hnd, doCleanup_newest_kept cfg now dir⟩

/-- Claim C4 witness: with max_dump_count = 1 and two current-version dumps,
exactly one (the newest) survives and the removed one is no newer. -/
theorem claim_C4_witness :
    [name00v5, name03v5].Nodup ∧
    (((doCleanup sampleCfgCount baseTime [name00v5, name03v5]).filter
        (isCurrentDump sampleCfgCount)).length =
      min sampleCfgCount.max_dump_count
        (collectCurrent sampleCfgCount baseTime [name00v5, name03v5]).length ∧
     (∀ f ∈ doCleanup sampleCfgCount baseTime [name00v5, name03v5],
        isCurrentDump sampleCfgCount f = true →
        ∀ g ∈ [name00v5, name03v5],
          (collectStep sampleCfgCount baseTime g).isSome = true →
          g ∉ doCleanup sampleCfgCount baseTime [name00v5, name03v5] →
          candTime sampleCfgCount g ≤ candTime sampleCfgCount f)) :=
  ⟨by decide,
    claim_C4_cleanup_count sampleCfgCount baseTime [name00v5, name03v5] (by decide)⟩

/-! ## Claim C8 -/

/-- Claim C8 counterexample: at `10000-01-01T00:00:00 UTC` the `%Y` field
renders five digits, the name no longer matches the `\d{4}-…` grammar, and
`ParseDumpName(GenerateDumpPath(t))` fails — the round-trip does not hold for
every microsecond-resolution time. -/
theorem claim_C8_counterexample :
    parseDumpName sampleCfg (dumpFileName sampleCfg 253402300800000000) = none := by
  decide

set_option maxRecDepth 10000 in
set_option maxHeartbeats 1000000 in
/-- Claim C8 amended: for every microsecond-resolution time whose UTC calendar
year is in 0000–9999 (so that `%Y` is exactly four digits), parsing the
generated dump file name succeeds and returns exactly the original time, the
generated path, and the configured format version. -/
theorem claim_C8_roundtrip (cfg : DumpConfig) (t : TimePoint)
    (h1 : -62167219200000000 ≤ t) (h2 : t ≤ 253402300799999999)
    (hv : cfg.dump_format_version < 2 ^ 64) :
    parseDumpName cfg (dumpFileName cfg t) =
      some ⟨t, generateDumpPath cfg t, cfg.dump_format_version⟩ := by
  have h1i : (-62167219200000000 : Int) ≤ t := h1
  have h2i : LE.le (α := Int) t 253402300799999999 := h2
  have hr0 : 0 ≤ t % 86400000000 := Int.emod_nonneg t (by norm_num)
  have hrlt : t % 86400000000 < 86400000000 := Int.emod_lt_of_pos t (by norm_num)
  have hg1 : 146037 ≤ (t / 86400000000 + 865565).toNat := by omega
  have hg2 : (t / 86400000000 + 865565).toNat ≤ 3798461 := by omega
  obtain ⟨y, mo, d, hcg, hy, hmo1, hmo12, hd1, hdm, hginv⟩ :=
    civilFromG_spec (t / 86400000000 + 865565).toNat hg1 hg2
  have htodlt : (t % 86400000000).toNat < 86400000000 := by omega
  have hhb : (t % 86400000000).toNat / 3600000000 ≤ 23 := by omega
  have hmib : (t % 86400000000).toNat % 3600000000 / 60000000 ≤ 59 := by omega
  have hsb : (t % 86400000000).toNat % 60000000 / 1000000 ≤ 59 := by omega
  have husb : (t % 86400000000).toNat % 1000000 < 10 ^ 6 := by omega
  have hd31 := daysInMonth_le_31 y mo
  have hshape : dumpFileName cfg t =
      padNum 4 y ++ ('-') :: (padNum 2 mo ++ ('-') :: (padNum 2 d ++
        ('T') :: (padNum 2 ((t % 86400000000).toNat / 3600000000) ++
        (':') :: (padNum 2 ((t % 86400000000).toNat % 3600000000 / 60000000) ++
        (':') :: (padNum 2 ((t % 86400000000).toNat % 60000000 / 1000000) ++
        ('.') :: (padNum 6 ((t % 86400000000).toNat % 1000000) ++
        ('-') :: ('v') :: natDec cfg.dump_format_version)))))) := by
    simp only [dumpFileName, timestringMicros, hcg]
    simp [List.append_assoc]
  have hst : stringtimeMicros y mo d ((t % 86400000000).toNat / 3600000000)
      ((t % 86400000000).toNat % 3600000000 / 60000000)
      ((t % 86400000000).toNat % 60000000 / 1000000)
      ((t % 86400000000).toNat % 1000000) = some t := by
    unfold stringtimeMicros
    split
    · rw [Option.some_inj, hginv]
      show Eq (α := Int) _ _
      have hc1 : (((t / 86400000000 + 865565).toNat : Nat) : Int) =
          t / 86400000000 + 865565 :=
        Int.toNat_of_nonneg (by omega)
      omega
    · rename_i hcond
      exact absurd ⟨hmo1, hmo12, hd1, hdm, hhb, hmib, hsb⟩ hcond
  have hpu : parseU64 (natDec cfg.dump_format_version) =
      some cfg.dump_format_version := by
    unfold parseU64
    rw [digitsVal_natDec, if_pos hv]
  unfold parseDumpName
  rw [hshape, splitFinalized_format y mo d
    ((t % 86400000000).toNat / 3600000000)
    ((t % 86400000000).toNat % 3600000000 / 60000000)
    ((t % 86400000000).toNat % 60000000 / 1000000)
    ((t % 86400000000).toNat % 1000000) cfg.dump_format_version
    (by omega) (by omega) (by omega) (by omega) (by omega) (by omega) husb]
  simp only []
  rw [hst, hpu]
  simp only []
  unfold generateDumpPath
  rw [hshape]

/-- Claim C8 witness: round-trip at the test-suite base time. -/
theorem claim_C8_witness :
    (-62167219200000000 ≤ baseTime ∧ baseTime ≤ 253402300799999999 ∧
      sampleCfg.dump_format_version < 2 ^ 64) ∧
    parseDumpName sampleCfg (dumpFileName sampleCfg baseTime) =
      some ⟨baseTime, generateDumpPath sampleCfg baseTime,
        sampleCfg.dump_format_version⟩ :=
  ⟨⟨by decide, by decide, by decide⟩,
    claim_C8_roundtrip sampleCfg baseTime (by decide) (by decide) (by decide)⟩
